import Mathlib

/-!
Verification development for the Lua bundler in `src/scripts/bundle.js`.

The program is embedded shallowly:

* Node's POSIX path arithmetic (`path.resolve`, `path.dirname`, `path.extname`,
  `path.relative`, `path.join`) is implemented on strings over `/`-separated
  components.  The program is only ever exercised by the theorems with an
  absolute, normalized `baseDir`; the `process.cwd()` fallback of `path.resolve`
  is modelled as the root `/` (irrelevant under that restriction).
* The filesystem is a finite association list from absolute path to file text;
  `fs.existsSync` is domain membership and `fs.readFileSync` is lookup.
* The `require(...)` rewriting regex `\brequire\s*\(\s*([^)]*)\)` and the
  string-literal test `^["']([^"']+)["']$` are implemented character by
  character, reproducing the left-to-right, non-overlapping semantics of
  `String.prototype.replace` with a global regex.
* `loadModule` is fuelled (the recursion is bounded by the finite filesystem;
  `Err.fuelOut` is a model artifact proved unreachable where needed).
* The behaviour of the *emitted* Lua loader (`import`) and host bridge
  (`game_require`) is given a small operational model over Lua values.

The console-only diagnostic pass (`warnOnTypeDefinitions`) and the coloured
warnings have no effect on the produced artifact and are not modelled.
-/

namespace Bundler

/-! ### Characters and strings -/

def isWordChar (c : Char) : Bool :=
  (('a' ≤ c) && (c ≤ 'z')) || (('A' ≤ c) && (c ≤ 'Z')) ||
  (('0' ≤ c) && (c ≤ '9')) || (c == '_')

/-- JavaScript `\s` restricted to ASCII (the inputs of interest are ASCII). -/
def isJsSpace (c : Char) : Bool :=
  (c == ' ') || (c == '\t') || (c == '\n') || (c == '\r') ||
  (c == '\x0b') || (c == '\x0c')

def charLower (c : Char) : Char :=
  if ('A' ≤ c) && (c ≤ 'Z') then Char.ofNat (c.toNat + 32) else c

/-- `String.prototype.toLowerCase`, ASCII fragment. -/
def strToLower (s : String) : String :=
  String.mk (s.toList.map charLower)

/-- `Array.prototype.join(sep)` / `String.intercalate`, with its own equations. -/
def sIntercalate (sep : String) : List String → String
  | [] => ""
  | [a] => a
  | a :: b :: rest => a ++ sep ++ sIntercalate sep (b :: rest)

/-- Substring test (used to reason about error-message contents). -/
def listStartsWith : List Char → List Char → Bool
  | _, [] => true
  | [], _ :: _ => false
  | a :: as, b :: bs => (a == b) && listStartsWith as bs

def strContainsAux : List Char → List Char → Bool
  | [], pat => pat.isEmpty
  | c :: cs, pat => listStartsWith (c :: cs) pat || strContainsAux cs pat

def strContains (hay needle : String) : Bool :=
  strContainsAux hay.toList needle.toList

/-! ### POSIX path arithmetic (the fragment of Node `path` used by bundle.js) -/

/-- Split on `/`, keeping empty pieces (they are dropped by normalization). -/
def splitSlash : List Char → List (List Char)
  | [] => [[]]
  | c :: cs =>
    let r := splitSlash cs
    if c == '/' then [] :: r
    else
      match r with
      | p :: ps => (c :: p) :: ps
      | [] => [[c]]

def rawComps (s : String) : List String :=
  (splitSlash s.toList).map String.mk

def isAbsS (s : String) : Bool :=
  match s.toList with
  | '/' :: _ => true
  | _ => false

/-- One step of `path.posix.normalize`: `absRoot` says whether `..` at the top
    is clamped (absolute paths) or kept (relative paths). -/
def normStepP (absRoot : Bool) (acc : List String) (c : String) : List String :=
  if c == "" || c == "." then acc
  else if c == ".." then
    match acc.getLast? with
    | some l => if l == ".." then acc ++ [c] else acc.dropLast
    | none => if absRoot then [] else [c]
  else acc ++ [c]

def normComps (absRoot : Bool) (cs : List String) : List String :=
  cs.foldl (normStepP absRoot) []

def joinAbs (cs : List String) : String :=
  "/" ++ sIntercalate "/" cs

/-- `path.resolve(a, b)` (POSIX).  `process.cwd()` is modelled as `/`; all
    theorems use an absolute `a`, where the model is exact. -/
def pathResolve (a b : String) : String :=
  if isAbsS b then joinAbs (normComps true (rawComps b))
  else joinAbs (normComps true (rawComps a ++ rawComps b))

/-- `path.join(a, b)` (POSIX). -/
def pathJoin (a b : String) : String :=
  if isAbsS a then joinAbs (normComps true (rawComps a ++ rawComps b))
  else
    let r := sIntercalate "/" (normComps false (rawComps a ++ rawComps b))
    if r == "" then "." else r

/-- `path.dirname(p)` (POSIX); exact on the normalized paths it is applied to. -/
def pathDirname (p : String) : String :=
  if isAbsS p then
    match ((rawComps p).filter (fun c => c ≠ "")).dropLast with
    | [] => "/"
    | l => "/" ++ sIntercalate "/" l
  else
    match ((rawComps p).filter (fun c => c ≠ "")).dropLast with
    | [] => "."
    | l => sIntercalate "/" l

/-- `path.extname(p)` (POSIX): suffix of the basename from its last dot,
    empty when the dot is absent or leads the basename. -/
def pathExtname (p : String) : String :=
  let b := ((splitSlash p.toList).getLastD []).reverse
  let pre := b.takeWhile (fun c => c != '.')
  if pre.length == b.length then ""
  else if pre.length + 1 == b.length then ""
  else String.mk ('.' :: pre.reverse)

def commonLen : List String → List String → Nat
  | a :: as, b :: bs => if a == b then commonLen as bs + 1 else 0
  | _, _ => 0

/-- `path.relative(f, t)` (POSIX), both arguments resolved first. -/
def pathRelative (f t : String) : String :=
  let fc := normComps true (rawComps f)
  let tc := normComps true (rawComps t)
  let common := commonLen fc tc
  sIntercalate "/" (List.replicate (fc.length - common) ".." ++ tc.drop common)

/-- `.replace(/\\/g, '/')` — identity on the POSIX strings of this model,
    kept for fidelity to line 83 of bundle.js. -/
def backslashToSlash (s : String) : String :=
  String.mk (s.toList.map (fun c => if c == '\\' then '/' else c))

/-! ### Filesystem model -/

/-- A filesystem: association list from absolute file path to file text. -/
abbrev Fs := List (String × String)

def domF (fs : Fs) : List String := fs.map Prod.fst

/-- `fs.readFileSync` (modulo the `utf8` decoding, which is identity here). -/
def lookupFs (fs : Fs) (p : String) : Option String := fs.lookup p

/-- `fs.existsSync`. -/
def existsSync (fs : Fs) (p : String) : Bool := (lookupFs fs p).isSome

/-! ### Errors (one constructor per `throw` site of bundle.js) -/

inductive Err where
  /-- lines 75/79: `Cannot find module '<requiredPath>' (at <referencing>)` -/
  | moduleNotFound (requiredPath referencing : String)
  /-- line 128: `Circular import detected: '<moduleName>' (at <previousPath>)` -/
  | circularImport (moduleName previousPath : String)
  /-- lines 138/159: `Could not read file at <filePath> ...`; the appended
      system `err.message` is not modelled. -/
  | ioError (filePath : String)
  /-- model artifact: recursion fuel ran out (proved unreachable). -/
  | fuelOut
deriving DecidableEq, Repr

/-- The exact message text thrown at each site (ANSI escapes included). -/
def Err.message : Err → String
  | .moduleNotFound r ref =>
      "Cannot find module \x1b[33m\x27" ++ r ++ "\x27 \x1b[0m(at \x1b[34m" ++ ref ++ "\x1b[0m)"
  | .circularImport m p =>
      "Circular import detected: \x1b[33m\x27" ++ m ++ "\x27 \x1b[0m(at \x1b[34m" ++ p ++ "\x1b[0m)"
  | .ioError p => "Could not read file at \x1b[34m" ++ p ++ " \x1b[0m"
  | .fuelOut => "fuel exhausted (model artifact)"

/-! ### Path Resolver (`resolveModulePath`, lines 64–84) -/

def resolveModulePath (fs : Fs) (baseDir currentFilePath requiredPath : String) :
    Except Err String :=
  let currentDir := pathDirname currentFilePath
  let absolute := pathResolve currentDir requiredPath
  let extension := strToLower (pathExtname absolute)
  if extension = "" then
    if existsSync fs (absolute ++ ".lua") then
      .ok (backslashToSlash (pathRelative baseDir (absolute ++ ".lua")))
    else if existsSync fs (absolute ++ ".luau") then
      .ok (backslashToSlash (pathRelative baseDir (absolute ++ ".luau")))
    else
      .error (.moduleNotFound requiredPath (pathResolve currentDir currentFilePath))
  else
    if existsSync fs absolute then
      .ok (backslashToSlash (pathRelative baseDir absolute))
    else
      .error (.moduleNotFound requiredPath (pathResolve currentDir currentFilePath))

/-! ### Content Transformer (`parseAndTransform`, lines 95–113) -/

def isQuote (c : Char) : Bool := (c == '"') || (c == '\'')

/-- `arg.match(/^["']([^"']+)["']$/)`: first and last characters are (any)
    quotes, the nonempty middle contains no quote characters. -/
def matchQuoted (s : String) : Option String :=
  match s.toList with
  | [] => none
  | c :: tl =>
    match tl.getLast? with
    | none => none
    | some lc =>
      let mid := tl.dropLast
      if isQuote c && isQuote lc && !mid.isEmpty &&
          mid.all (fun ch => !(isQuote ch)) then
        some (String.mk mid)
      else none

def dropSpaces (cs : List Char) : List Char := cs.dropWhile isJsSpace

def stripReq : List Char → Option (List Char)
  | 'r' :: 'e' :: 'q' :: 'u' :: 'i' :: 'r' :: 'e' :: rest => some rest
  | _ => none

/-- Try to match `require\s*\(\s*([^)]*)\)` at the head of `cs`; on success
    return the captured argument and the characters after the match. -/
def matchAt (cs : List Char) : Option (String × List Char) :=
  match stripReq cs with
  | none => none
  | some r1 =>
    match dropSpaces r1 with
    | '(' :: r2 =>
      let r3 := dropSpaces r2
      let arg := r3.takeWhile (fun c => c != ')')
      match r3.dropWhile (fun c => c != ')') with
      | ')' :: rest => some (String.mk arg, rest)
      | _ => none
    | _ => none

/-- The replacer callback of `luaContent.replace(requirePattern, ...)`
    (lines 99–110): returns the replacement text and the dependency that the
    site contributes to `subModules` (none for a non-literal argument). -/
def siteReplace (resolver : String → Except Err String) (arg : String) :
    Except Err (String × Option String) :=
  match matchQuoted arg with
  | some requiredPath =>
    match resolver requiredPath with
    | .ok resolvedModule =>
        .ok ("import(\"" ++ resolvedModule ++ "\")", some resolvedModule)
    | .error e => .error e
  | none => .ok ("import(" ++ arg ++ ")", none)

/-- The global-regex replacement scan: left to right, non-overlapping,
    replacements are not rescanned; `prevW` tracks whether the previous
    character of the *original* text was a word character (for `\b`).
    The scan is structurally recursive on a fuel that bounds the input
    length (each step consumes at least one character, so with
    `fuel = cs.length` the fuel-exhausted case is only reached at `[]`,
    where it agrees with the empty case — see `scanAux_fuel`). -/
def scanAux (resolver : String → Except Err String) :
    Nat → Bool → List Char → Except Err (List Char × List String)
  | 0, _, _ => .ok ([], [])
  | _ + 1, _, [] => .ok ([], [])
  | fuel + 1, prevW, c :: cs =>
    if prevW then
      match scanAux resolver fuel (isWordChar c) cs with
      | .ok (out, deps) => .ok (c :: out, deps)
      | .error e => .error e
    else
      match matchAt (c :: cs) with
      | some (arg, rest) =>
        match siteReplace resolver arg with
        | .ok (rep, dep) =>
          match scanAux resolver fuel false rest with
          | .ok (out, deps) =>
            .ok (rep.toList ++ out,
                 match dep with
                 | some d => d :: deps
                 | none => deps)
          | .error e => .error e
        | .error e => .error e
      | none =>
        match scanAux resolver fuel (isWordChar c) cs with
        | .ok (out, deps) => .ok (c :: out, deps)
        | .error e => .error e

/-- `parseAndTransform(luaContent, currentFilePath)` (lines 95–113). -/
def parseAndTransform (fs : Fs) (baseDir : String)
    (luaContent currentFilePath : String) : Except Err (String × List String) :=
  match scanAux (resolveModulePath fs baseDir currentFilePath)
      luaContent.toList.length false luaContent.toList with
  | .ok (out, subs) => .ok (String.mk out, subs)
  | .error e => .error e

/-! ### Dependency Graph Builder (`loadModule`, lines 124–152) -/

/-- The shared mutable state of `bundleLua`: the `visited` set and the
    insertion-ordered `modules` table (JavaScript object with string keys,
    none of which is array-index-like, so `Object.entries` iterates in
    insertion order). -/
structure BState where
  visited : List String
  modules : List (String × String)
deriving DecidableEq, Repr

/-- `modules[moduleName] = newContent`: replace in place when the key exists,
    append otherwise (JavaScript object insertion-order semantics). -/
def insertMod (mods : List (String × String)) (k v : String) :
    List (String × String) :=
  if (mods.lookup k).isSome then
    mods.map (fun kv => if kv.1 = k then (k, v) else kv)
  else mods ++ [(k, v)]

/-- The `for (const subModule of subModules)` loop of `loadModule`
    (lines 146–148), abstracted over the recursive call. -/
def loadList (f : String → List String → String → BState → Except Err BState) :
    List String → List String → String → BState → Except Err BState
  | [], _, _, st => .ok st
  | d :: ds, stack, prev, st =>
    match f d stack prev st with
    | .ok st1 => loadList f ds stack prev st1
    | .error e => .error e

/-- `loadModule(moduleName, stack, previousPath)` (lines 124–152), fuelled:
    the recursion depth is bounded by the (finite) filesystem, and
    `Err.fuelOut` is unreachable at the fuel used by `bundleLua`. -/
def loadModule (fs : Fs) (baseDir : String) :
    Nat → String → List String → String → BState → Except Err BState
  | 0, _, _, _, _ => .error .fuelOut
  | fuel + 1, moduleName, stack, previousPath, st =>
    let modulePath := pathResolve baseDir moduleName
    if modulePath ∈ stack then
      .error (.circularImport moduleName previousPath)
    else if modulePath ∈ st.visited then
      .ok st
    else
      match lookupFs fs modulePath with
      | none => .error (.ioError modulePath)
      | some luaContent =>
        match parseAndTransform fs baseDir luaContent modulePath with
        | .error e => .error e
        | .ok (newContent, subModules) =>
          match loadList (loadModule fs baseDir fuel) subModules
              (modulePath :: stack) modulePath
              { st with modules := insertMod st.modules moduleName newContent } with
          | .ok st3 => .ok { st3 with visited := modulePath :: st3.visited }
          | .error e => .error e

/-- The entry-dependency loop of `bundleLua` (lines 167–169):
    each direct entry import starts with a fresh empty stack. -/
def loadEntry (fs : Fs) (baseDir : String) (fuel : Nat) :
    List String → String → BState → Except Err BState
  | [], _, st => .ok st
  | d :: ds, entryPath, st =>
    match loadModule fs baseDir fuel d [] entryPath st with
    | .ok st1 => loadEntry fs baseDir fuel ds entryPath st1
    | .error e => .error e

/-! ### Output Emitter (lines 171–232) -/

def headerLines (dateString timeString : String) : List String :=
  ["--",
   "-- LuaBundler v1.0.0",
   "-- Bundled on " ++ dateString ++ " at " ++ timeString,
   "-- @author discordrpc",
   "--",
   "--!nolint",
   "local __BUNDLE = \x7b\x7d",
   ""]

/-- One thunk binding of the module table (lines 188–193). -/
def moduleBlock (name luaSource : String) : List String :=
  ["__BUNDLE[\x27" ++ name ++ "\x27] = function()", luaSource, "end", ""]

/-- The emitted `import` loader (lines 196–211). -/
def importLines : List String :=
  ["function import(name)",
   "  if __BUNDLE[name] then",
   "    if type(__BUNDLE[name]) == \x27function\x27 then",
   "      local result = __BUNDLE[name]()",
   "      __BUNDLE[name] = result",
   "      return result",
   "    else",
   "      return __BUNDLE[name]",
   "    end",
   "  else",
   "    error(\x27Module \"\x27 .. name .. \x27\" not found in bundle\x27)",
   "  end",
   "end",
   ""]

/-- The emitted `game_require` host bridge (lines 213–228). -/
def gameRequireLines : List String :=
  ["function game_require(module, callback)",
   "  setthreadidentity(2)",
   "  local imported = require(module)",
   "  if typeof(callback) == \x27function\x27 and imported ~= nil then",
   "    callback(imported)",
   "  end",
   "  setthreadidentity(7)",
   "  if imported == nil then",
   "    error(\x27Failed to require game module \"\x27 .. module .. \x27\"\x27)",
   "  else",
   "    return imported",
   "  end",
   "end",
   ""]

/-- `output.join('\n')` over all pushed lines (lines 175–232). -/
def emitBundle (mods : List (String × String)) (transformedEntry : String)
    (dateString timeString : String) : String :=
  sIntercalate "\n"
    (headerLines dateString timeString ++
     mods.flatMap (fun kv => moduleBlock kv.1 kv.2) ++
     importLines ++ gameRequireLines ++
     ["-- Entry point", transformedEntry])

/-! ### `bundleLua` (lines 18–233) and the CLI wrapper (lines 244–266) -/

/-- Everything of `bundleLua` up to emission: the finished module table and
    the transformed entry text. -/
def buildModules (fs : Fs) (baseDir entryFile : String) :
    Except Err (BState × String) :=
  let entryPath := pathJoin baseDir entryFile
  match lookupFs fs entryPath with
  | none => .error (.ioError entryPath)
  | some entryContent =>
    match parseAndTransform fs baseDir entryContent entryPath with
    | .error e => .error e
    | .ok (transformedEntry, entryImports) =>
      match loadEntry fs baseDir (fs.length + 1) entryImports entryPath
          { visited := [], modules := [] } with
      | .ok stF => .ok (stF, transformedEntry)
      | .error e => .error e

/-- `bundleLua(baseDir, entryFile)`.  The generation timestamp
    (`toLocaleDateString`/`toLocaleTimeString`) is an ambient input and is
    passed as the `dateString`/`timeString` parameters. -/
def bundleLua (fs : Fs) (baseDir entryFile dateString timeString : String) :
    Except Err String :=
  match buildModules fs baseDir entryFile with
  | .ok (stF, transformedEntry) =>
      .ok (emitBundle stF.modules transformedEntry dateString timeString)
  | .error e => .error e

/-- The CLI `try`/`catch` (lines 259–266): the artifact text is written only
    when `bundleLua` returns normally; on a thrown error nothing is written. -/
def runCli (fs : Fs) (baseDir entryFile dateString timeString : String) :
    Option String :=
  (bundleLua fs baseDir entryFile dateString timeString).toOption

/-! ### Operational model of the emitted `import` loader (lines 196–211)

Lua values, as far as the generated code can distinguish them.  A function
value carries an opaque `code` index; invoking any function is delegated to an
ambient `callFn : Nat → σ → σ × LVal` over an external state `σ` (which lets
the theorems observe how many times a module body executes).  A table entry equal
to `lnil` is an absent entry (Lua table semantics), and the initial `__BUNDLE`
table maps each module key to the function value of its thunk. -/

inductive LVal where
  | lnil
  | lbool (b : Bool)
  | lnum (n : Int)
  | lstr (s : String)
  | lfn (code : Nat)
deriving DecidableEq, Repr

/-- Lua truthiness: `nil` and `false` are falsy, everything else truthy. -/
def ltruthy : LVal → Bool
  | .lnil => false
  | .lbool b => b
  | _ => true

/-- Lua `type(v)`. -/
def ltype : LVal → String
  | .lnil => "nil"
  | .lbool _ => "boolean"
  | .lnum _ => "number"
  | .lstr _ => "string"
  | .lfn _ => "function"

/-- `__BUNDLE[name] = v` (assigning `nil` removes the entry, which this
    total-function representation models directly). -/
def tupd (t : String → LVal) (k : String) (v : LVal) : String → LVal :=
  fun x => if x = k then v else t x

/-- One invocation of the emitted `import(name)` (lines 196–211): result of
    the call (`error` = Lua `error(...)`), the table afterwards, and the
    external state afterwards.  The `type(__BUNDLE[name]) == 'function'`
    branch is the `.lfn` case (see `ltype_function_iff`). -/
def importSem {σ : Type} (callFn : Nat → σ → σ × LVal) (t : String → LVal)
    (name : String) (s : σ) : Except String LVal × (String → LVal) × σ :=
  let v := t name
  if ltruthy v then
    match v with
    | .lfn code =>
      let r := callFn code s
      (.ok r.2, tupd t name r.2, r.1)
    | _ => (.ok v, t, s)
  else
    (.error ("Module \"" ++ name ++ "\" not found in bundle"), t, s)

/-! ### Operational model of the emitted `game_require` (lines 213–228) -/

/-- Host state for the generated bridge: the thread-identity setting changed
    by `setthreadidentity`, plus arbitrary further state `σ` that the
    environment loader and the callback may read and write. -/
structure HState (σ : Type) where
  identity : Int
  user : σ
deriving DecidableEq, Repr

/-- One invocation of the emitted `game_require(module, callback)`
    (lines 213–228).  `envLoad` is the host-provided `require`; it and the
    callback may raise (`.error`), which propagates out of `game_require`
    exactly as a Lua error would (no `pcall` protects any of the calls). -/
def gameRequireSem {σ : Type}
    (envLoad : HState σ → HState σ × Except String LVal)
    (callback : Option (LVal → HState σ → HState σ × Except String LVal))
    (moduleArg : String) (st : HState σ) : HState σ × Except String LVal :=
  -- setthreadidentity(2)
  let st1 : HState σ := { st with identity := 2 }
  -- local imported = require(module)
  match envLoad st1 with
  | (st2, .error e) => (st2, .error e)
  | (st2, .ok imported) =>
    -- if typeof(callback) == 'function' and imported ~= nil then callback(imported) end
    let afterCb : HState σ × Option String :=
      match callback with
      | some cb =>
        if imported ≠ .lnil then
          match cb imported st2 with
          | (st3, .error e) => (st3, some e)
          | (st3, .ok _) => (st3, none)
        else (st2, none)
      | none => (st2, none)
    match afterCb with
    | (st3, some e) => (st3, .error e)
    | (st3, none) =>
      -- setthreadidentity(7)
      let st4 : HState σ := { st3 with identity := 7 }
      if imported = .lnil then
        (st4, .error ("Failed to require game module \"" ++ moduleArg ++ "\""))
      else
        (st4, .ok imported)

/-! ### Spec-side discovery order (for the ordering claim)

`dfsDiscovery` is the comparison definition for C3, written from the spec's
words (§4.3 step 8, §8 *Insertion-order determinism*): record a module at
first discovery (pre-order), then recurse into its dependency list in order;
"seen" is keyed by resolved absolute path, as the spec's VisitedSet is. -/

def specDeps (fs : Fs) (baseDir : String) (p : String) : List String :=
  match lookupFs fs p with
  | none => []
  | some c =>
    match parseAndTransform fs baseDir c p with
    | .ok (_, subs) => subs
    | .error _ => []

def dfsGo (f : String → List String → List String × List String) :
    List String → List String → List String × List String
  | [], seen => (seen, [])
  | d :: ds, seen =>
    let r1 := f d seen
    let r2 := dfsGo f ds r1.1
    (r2.1, r1.2 ++ r2.2)

def dfsMod (fs : Fs) (baseDir : String) :
    Nat → String → List String → List String × List String
  | 0, _, seen => (seen, [])
  | fuel + 1, n, seen =>
    let a := pathResolve baseDir n
    if a ∈ seen then (seen, [])
    else
      let r := dfsGo (dfsMod fs baseDir fuel) (specDeps fs baseDir a) (seen ++ [a])
      (r.1, n :: r.2)

/-- The spec's depth-first, first-occurrence discovery order over the entry's
    direct imports. -/
def dfsDiscovery (fs : Fs) (baseDir : String) (entryImports : List String) :
    List String :=
  (dfsGo (dfsMod fs baseDir (fs.length + 1)) entryImports []).2

/-! ### The module graph on absolute paths (for cycle/reachability claims) -/

def edgesA (fs : Fs) (baseDir : String) (p : String) : List String :=
  (specDeps fs baseDir p).map (pathResolve baseDir)

/-- Reflexive-transitive reachability along dependency edges. -/
inductive PathTo (fs : Fs) (baseDir : String) : String → String → Prop where
  | refl (p : String) : PathTo fs baseDir p p
  | step {p q r : String} (h : q ∈ edgesA fs baseDir p)
      (h2 : PathTo fs baseDir q r) : PathTo fs baseDir p r

/-- A (nonempty) dependency cycle through `p`. -/
def CycThru (fs : Fs) (baseDir : String) (p : String) : Prop :=
  ∃ q, q ∈ edgesA fs baseDir p ∧ PathTo fs baseDir q p

/-- Executable well-formedness of the module graph: every file of the
    filesystem transforms successfully, and every dependency it reports
    resolves to a file of the filesystem. -/
def domainOkB (fs : Fs) (baseDir : String) : Bool :=
  fs.all fun pc =>
    match parseAndTransform fs baseDir pc.2 pc.1 with
    | .ok (_, subs) => subs.all (fun s => decide (pathResolve baseDir s ∈ domF fs))
    | .error _ => false

def keysOf (mods : List (String × String)) : List String := mods.map Prod.fst

def absKeys (baseDir : String) (mods : List (String × String)) : List String :=
  mods.map (fun kv => pathResolve baseDir kv.1)

/-- The invariant of the traversal state, at the point where `loadModule` is
    entered or left: the stack is duplicate-free and lives in the filesystem;
    table keys are unique; every table key's absolute path is on the stack or
    visited; every visited path is some table key's absolute path; the visited
    set is closed under dependency edges and contains no module on a
    dependency cycle. -/
structure InvS (fs : Fs) (baseDir : String) (stack : List String) (st : BState) :
    Prop where
  stackNd : stack.Nodup
  stackDom : ∀ p ∈ stack, p ∈ domF fs
  keysNd : (keysOf st.modules).Nodup
  keysCov : ∀ k ∈ keysOf st.modules,
    pathResolve baseDir k ∈ stack ∨ pathResolve baseDir k ∈ st.visited
  visCov : ∀ v ∈ st.visited, ∃ k ∈ keysOf st.modules, pathResolve baseDir k = v
  visClosed : ∀ v ∈ st.visited, ∀ z ∈ edgesA fs baseDir v, z ∈ st.visited
  visNoCyc : ∀ v ∈ st.visited, ¬ CycThru fs baseDir v

/-- What a successful `loadModule` call guarantees (conclusion of the main
    induction): monotone visited growth, the module visited, the invariant
    restored, all new table keys `R`-reachable and visited, and the new keys
    equal to the spec's DFS discovery order from this module. -/
def ModPost (fs : Fs) (baseDir : String) (R : String → Prop) (fuel : Nat)
    (m : String) (stack : List String) (st st2 : BState) : Prop :=
  st.visited ⊆ st2.visited ∧
  pathResolve baseDir m ∈ st2.visited ∧
  InvS fs baseDir stack st2 ∧
  (∀ k ∈ keysOf st2.modules, R (pathResolve baseDir k)) ∧
  ∃ tail, st2.modules = st.modules ++ tail ∧
    (∀ k ∈ keysOf tail, pathResolve baseDir k ∈ st2.visited) ∧
    (∀ v ∈ st2.visited, v ∈ st.visited ∨
      ∃ k ∈ keysOf tail, pathResolve baseDir k = v) ∧
    dfsMod fs baseDir fuel m (absKeys baseDir st.modules) =
      (absKeys baseDir st2.modules, keysOf tail)

/-- The list version of `ModPost`, for the dependency loop. -/
def ListPost (fs : Fs) (baseDir : String) (R : String → Prop) (fuel : Nat)
    (ds : List String) (stack : List String) (st st2 : BState) : Prop :=
  st.visited ⊆ st2.visited ∧
  (∀ d ∈ ds, pathResolve baseDir d ∈ st2.visited) ∧
  InvS fs baseDir stack st2 ∧
  (∀ k ∈ keysOf st2.modules, R (pathResolve baseDir k)) ∧
  ∃ tail, st2.modules = st.modules ++ tail ∧
    (∀ k ∈ keysOf tail, pathResolve baseDir k ∈ st2.visited) ∧
    (∀ v ∈ st2.visited, v ∈ st.visited ∨
      ∃ k ∈ keysOf tail, pathResolve baseDir k = v) ∧
    dfsGo (dfsMod fs baseDir fuel) ds (absKeys baseDir st.modules) =
      (absKeys baseDir st2.modules, keysOf tail)

/-! ### Concrete fixtures used by witnesses and counterexamples -/

/-- Extension-probing fixture: `x` exists under both extensions, `y` only as
    `.luau`. -/
def fsProbe : Fs :=
  [("/src/x.lua", "return 1"), ("/src/x.luau", "return 2"),
   ("/src/y.luau", "return 3")]

/-- Two-module cycle `a ↔ b` reachable from the entry. -/
def fsCyc2 : Fs :=
  [("/src/main.lua", "require(\"./a\")"),
   ("/src/a.lua", "require(\"./b\")"),
   ("/src/b.lua", "require(\"./a\")")]

/-- Three-module cycle `amod → bmod → cmod → amod` reachable from the entry. -/
def fsCyc3 : Fs :=
  [("/src/main.lua", "require(\"./amod\")"),
   ("/src/amod.lua", "require(\"./bmod\")"),
   ("/src/bmod.lua", "require(\"./cmod\")"),
   ("/src/cmod.lua", "require(\"./amod\")")]

/-- Unresolvable import fixture. -/
def fsMiss : Fs := [("/src/main.lua", "require(\"./missing\")")]

/-- Diamond fixture: `main → {a, b}`, `a → d`, `b → d`. -/
def fsDiamond : Fs :=
  [("/src/main.lua",
      "local a = require(\"./a\")\nlocal b = require(\"./b\")\nprint(a, b)"),
   ("/src/a.lua", "return require(\"./d\")"),
   ("/src/b.lua", "return require(\"./d\") + 1"),
   ("/src/d.lua", "return 1")]

/-! ### Basic lemmas about the scanner -/

theorem stripReq_length {cs rest : List Char} (h : stripReq cs = some rest) :
    rest.length + 7 = cs.length := by
  unfold stripReq at h
  split at h
  · cases h; simp
  · exact absurd h (by simp)

theorem dropWhileLen {α : Type} (p : α → Bool) (l : List α) :
    (l.dropWhile p).length ≤ l.length := by
  induction l with
  | nil => simp [List.dropWhile]
  | cons a l ih =>
    rw [List.dropWhile]
    cases p a
    · simp
    · simpa using Nat.le_succ_of_le ih

theorem dropSpaces_length (cs : List Char) : (dropSpaces cs).length ≤ cs.length :=
  dropWhileLen isJsSpace cs

theorem matchAt_length {cs : List Char} {arg : String} {rest : List Char}
    (h : matchAt cs = some (arg, rest)) : rest.length < cs.length := by
  unfold matchAt at h
  split at h
  · exact absurd h (by simp)
  next r1 hs =>
    split at h
    next r2 hd =>
      dsimp only at h
      split at h
      next rest2 hw =>
        simp only [Option.some.injEq, Prod.mk.injEq] at h
        obtain ⟨-, hrest⟩ := h
        subst hrest
        have h2 : ((')') :: rest2).length ≤ (dropSpaces r2).length := by
          rw [← hw]
          exact (dropWhileLen (fun c => c != ')') (dropSpaces r2))
        have h3 : (dropSpaces r2).length ≤ r2.length := dropSpaces_length r2
        have h5 : ('(' :: r2).length ≤ r1.length := by
          rw [← hd]; exact dropSpaces_length r1
        have h6 : r1.length + 7 = cs.length := stripReq_length hs
        simp only [List.length_cons] at h2 h5
        omega
      · exact absurd h (by simp)
    · exact absurd h (by simp)

/-- The scan result does not depend on the fuel, as long as the fuel covers
    the input length. -/
theorem scanAux_fuel (resolver : String → Except Err String) :
    ∀ (f1 : Nat) (f2 : Nat) (prevW : Bool) (cs : List Char),
      cs.length ≤ f1 → cs.length ≤ f2 →
      scanAux resolver f1 prevW cs = scanAux resolver f2 prevW cs := by
  intro f1
  induction f1 with
  | zero =>
    intro f2 prevW cs h1 h2
    have hnil : cs = [] := List.length_eq_zero.mp (Nat.le_zero.mp h1)
    subst hnil
    cases f2 <;> rfl
  | succ f ih =>
    intro f2 prevW cs h1 h2
    cases cs with
    | nil => cases f2 <;> rfl
    | cons c cs2 =>
      cases f2 with
      | zero => exact absurd h2 (by simp)
      | succ f2p =>
        simp only [List.length_cons] at h1 h2
        rw [scanAux, scanAux]
        have hc2 : cs2.length ≤ f := Nat.lt_succ_iff.mp (Nat.lt_of_lt_of_le (Nat.lt_succ_self _) h1)
        have hc2b : cs2.length ≤ f2p := Nat.lt_succ_iff.mp (Nat.lt_of_lt_of_le (Nat.lt_succ_self _) h2)
        by_cases hw : prevW
        · subst hw
          rw [if_pos rfl, if_pos rfl]
          rw [ih f2p (isWordChar c) cs2 hc2 hc2b]
        · simp only [Bool.not_eq_true] at hw
          subst hw
          rw [if_neg (by decide), if_neg (by decide)]
          cases hma : matchAt (c :: cs2) with
          | some pr =>
            obtain ⟨arg, rest⟩ := pr
            have hrl := matchAt_length hma
            simp only [List.length_cons] at hrl
            simp only [hma]
            cases hsp : siteReplace resolver arg with
            | ok pr2 =>
              obtain ⟨rep, dep⟩ := pr2
              simp only [hsp]
              rw [ih f2p false rest (by omega) (by omega)]
            | error e => simp only [hsp]
          | none =>
            simp only [hma]
            rw [ih f2p (isWordChar c) cs2 hc2 hc2b]

theorem ltype_function_iff (v : LVal) : ltype v = "function" ↔ ∃ c, v = .lfn c := by
  cases v <;> simp [ltype]


/-! ### C4 — extension probing in the path resolver -/

/-- C4: for an import literal whose resolved path has no extension, the
    resolver probes the primary extension `.lua` first and the secondary
    extension `.luau` second, taking the first existing file and failing with
    `ModuleNotFound` when neither exists; for a literal that already has an
    extension it requires that exact file; the returned canonical path is the
    resolved file's path relative to the base directory with forward-slash
    separators. -/
theorem c4_extension_probing (fs : Fs) (baseDir currentFilePath requiredPath : String) :
    (strToLower (pathExtname (pathResolve (pathDirname currentFilePath) requiredPath)) = "" →
      (existsSync fs (pathResolve (pathDirname currentFilePath) requiredPath ++ ".lua") = true →
        resolveModulePath fs baseDir currentFilePath requiredPath =
          .ok (backslashToSlash (pathRelative baseDir
            (pathResolve (pathDirname currentFilePath) requiredPath ++ ".lua")))) ∧
      (existsSync fs (pathResolve (pathDirname currentFilePath) requiredPath ++ ".lua") = false →
        existsSync fs (pathResolve (pathDirname currentFilePath) requiredPath ++ ".luau") = true →
        resolveModulePath fs baseDir currentFilePath requiredPath =
          .ok (backslashToSlash (pathRelative baseDir
            (pathResolve (pathDirname currentFilePath) requiredPath ++ ".luau")))) ∧
      (existsSync fs (pathResolve (pathDirname currentFilePath) requiredPath ++ ".lua") = false →
        existsSync fs (pathResolve (pathDirname currentFilePath) requiredPath ++ ".luau") = false →
        resolveModulePath fs baseDir currentFilePath requiredPath =
          .error (.moduleNotFound requiredPath
            (pathResolve (pathDirname currentFilePath) currentFilePath)))) ∧
    (strToLower (pathExtname (pathResolve (pathDirname currentFilePath) requiredPath)) ≠ "" →
      (existsSync fs (pathResolve (pathDirname currentFilePath) requiredPath) = true →
        resolveModulePath fs baseDir currentFilePath requiredPath =
          .ok (backslashToSlash (pathRelative baseDir
            (pathResolve (pathDirname currentFilePath) requiredPath)))) ∧
      (existsSync fs (pathResolve (pathDirname currentFilePath) requiredPath) = false →
        resolveModulePath fs baseDir currentFilePath requiredPath =
          .error (.moduleNotFound requiredPath
            (pathResolve (pathDirname currentFilePath) currentFilePath)))) := by
  constructor
  · intro h0
    refine ⟨fun h1 => ?_, fun h1 h2 => ?_, fun h1 h2 => ?_⟩ <;>
      simp [resolveModulePath, h0, h1]
    · simp [h2]
    · simp [h2]
  · intro h0
    refine ⟨fun h1 => ?_, fun h1 => ?_⟩ <;>
      simp [resolveModulePath, h0, h1]

/-- Witness for C4: all five branches exercised on `fsProbe`. -/
theorem c4_extension_probing_witness :
    resolveModulePath fsProbe "/src" "/src/main.lua" "./x" =
      .ok (backslashToSlash (pathRelative "/src"
        (pathResolve (pathDirname "/src/main.lua") "./x" ++ ".lua"))) ∧
    resolveModulePath fsProbe "/src" "/src/main.lua" "./y" =
      .ok (backslashToSlash (pathRelative "/src"
        (pathResolve (pathDirname "/src/main.lua") "./y" ++ ".luau"))) ∧
    resolveModulePath fsProbe "/src" "/src/main.lua" "./z" =
      .error (.moduleNotFound "./z"
        (pathResolve (pathDirname "/src/main.lua") "/src/main.lua")) ∧
    resolveModulePath fsProbe "/src" "/src/main.lua" "./x.luau" =
      .ok (backslashToSlash (pathRelative "/src"
        (pathResolve (pathDirname "/src/main.lua") "./x.luau"))) ∧
    resolveModulePath fsProbe "/src" "/src/main.lua" "./z.lua" =
      .error (.moduleNotFound "./z.lua"
        (pathResolve (pathDirname "/src/main.lua") "/src/main.lua")) :=
  ⟨((c4_extension_probing fsProbe "/src" "/src/main.lua" "./x").1 (by decide)).1 (by decide),
   (((c4_extension_probing fsProbe "/src" "/src/main.lua" "./y").1 (by decide)).2.1
      (by decide) (by decide)),
   (((c4_extension_probing fsProbe "/src" "/src/main.lua" "./z").1 (by decide)).2.2
      (by decide) (by decide)),
   ((c4_extension_probing fsProbe "/src" "/src/main.lua" "./x.luau").2 (by decide)).1
      (by decide),
   ((c4_extension_probing fsProbe "/src" "/src/main.lua" "./z.lua").2 (by decide)).2
      (by decide)⟩

/-! ### C8 — dynamic import passthrough -/

/-- C8: at every import call site whose single argument is not a simple
    string literal, the transformer contributes no entry to the dependency
    list and rewrites the call to a lookup call forwarding the original
    argument expression unchanged. -/
theorem c8_dynamic_passthrough (resolver : String → Except Err String)
    (fuel : Nat) (cs : List Char) (arg : String) (rest : List Char)
    (hm : matchAt cs = some (arg, rest))
    (hq : matchQuoted arg = none)
    (hf : cs.length ≤ fuel) :
    scanAux resolver fuel false cs =
      match scanAux resolver rest.length false rest with
      | .ok (out, deps) => .ok (("import(" ++ arg ++ ")").toList ++ out, deps)
      | .error e => .error e := by
  cases fuel with
  | zero =>
    have hnil : cs = [] := List.length_eq_zero.mp (Nat.le_zero.mp hf)
    subst hnil
    exact absurd hm (by simp [matchAt, stripReq])
  | succ f =>
    cases cs with
    | nil => exact absurd hm (by simp [matchAt, stripReq])
    | cons c cs2 =>
      have hrl := matchAt_length hm
      simp only [List.length_cons] at hrl hf
      rw [scanAux]
      rw [if_neg (by decide)]
      simp only [hm, siteReplace, hq]
      rw [scanAux_fuel resolver f rest.length false rest (by omega) (Nat.le_refl _)]

/-- Witness for C8: `require(foo())` is forwarded unresolved, contributing no
    dependency. -/
theorem c8_dynamic_passthrough_witness :
    scanAux (resolveModulePath fsProbe "/src" "/src/main.lua")
        "require(foo())".toList.length false "require(foo())".toList =
      match scanAux (resolveModulePath fsProbe "/src" "/src/main.lua")
          ")".toList.length false ")".toList with
      | .ok (out, deps) => .ok (("import(" ++ "foo(" ++ ")").toList ++ out, deps)
      | .error e => .error e :=
  c8_dynamic_passthrough (resolveModulePath fsProbe "/src" "/src/main.lua")
    "require(foo())".toList.length "require(foo())".toList "foo(" ")".toList
    (by decide) (by decide) (by decide)

/-! ### C10 — the literal pattern accepts mismatched quotes -/

/-- C10: the literal-detection pattern does not require the opening and
    closing quote characters to match: an argument that opens with one quote
    character and closes with the other is treated as a string literal — it is
    resolved, appended to the dependency list, and rewritten as a
    double-quoted lookup call — rather than forwarded unresolved. -/
theorem c10_mismatched_quotes (resolver : String → Except Err String)
    (fuel : Nat) (cs : List Char) (arg : String) (rest : List Char)
    (mid : List Char) (res : String)
    (hm : matchAt cs = some (arg, rest))
    (hmid : mid ≠ [])
    (hnq : mid.all (fun ch => !(isQuote ch)) = true)
    (harg : arg = String.mk ('"' :: (mid ++ ['\x27'])))
    (hr : resolver (String.mk mid) = .ok res)
    (hf : cs.length ≤ fuel) :
    matchQuoted arg = some (String.mk mid) ∧
    scanAux resolver fuel false cs =
      match scanAux resolver rest.length false rest with
      | .ok (out, deps) =>
          .ok (("import(\"" ++ res ++ "\")").toList ++ out, res :: deps)
      | .error e => .error e := by
  have hqm : matchQuoted arg = some (String.mk mid) := by
    subst harg
    simp only [matchQuoted, String.toList]
    simp only [List.getLast?_concat, List.dropLast_concat]
    have h2 : ∀ x ∈ mid, ¬x = '"' ∧ ¬x = '\x27' := by
      intro x hx
      have h3 := (List.all_eq_true.mp hnq) x hx
      simpa [isQuote] using h3
    simp [isQuote, hmid]
    exact h2
  refine ⟨hqm, ?_⟩
  cases fuel with
  | zero =>
    have hnil : cs = [] := List.length_eq_zero.mp (Nat.le_zero.mp hf)
    subst hnil
    exact absurd hm (by simp [matchAt, stripReq])
  | succ f =>
    cases cs with
    | nil => exact absurd hm (by simp [matchAt, stripReq])
    | cons c cs2 =>
      have hrl := matchAt_length hm
      simp only [List.length_cons] at hrl hf
      rw [scanAux]
      rw [if_neg (by decide)]
      simp only [hm, siteReplace, hqm, hr]
      rw [scanAux_fuel resolver f rest.length false rest (by omega) (Nat.le_refl _)]

/-- Witness for C10: `require("./x')` (mismatched quotes) resolves `./x` and
    rewrites to a double-quoted lookup. -/
theorem c10_mismatched_quotes_witness :
    matchQuoted "\"./x\x27" = some "./x" ∧
    scanAux (resolveModulePath fsProbe "/src" "/src/main.lua")
        "require(\"./x\x27)".toList.length false "require(\"./x\x27)".toList =
      match scanAux (resolveModulePath fsProbe "/src" "/src/main.lua")
          "".toList.length false "".toList with
      | .ok (out, deps) =>
          .ok (("import(\"" ++ "x.lua" ++ "\")").toList ++ out, "x.lua" :: deps)
      | .error e => .error e :=
  c10_mismatched_quotes (resolveModulePath fsProbe "/src" "/src/main.lua")
    "require(\"./x\x27)".toList.length "require(\"./x\x27)".toList "\"./x\x27"
    "".toList "./x".toList "x.lua"
    (by decide) (by decide) (by decide) (by decide) (by rfl) (by decide)

/-! ### C5 — what the fatal error messages actually carry -/

theorem listStartsWith_self (pat post : List Char) :
    listStartsWith (pat ++ post) pat = true := by
  induction pat with
  | nil => cases post <;> rfl
  | cons a l ih => simp [listStartsWith, ih]

theorem strContainsAux_nilpat (hay : List Char) : strContainsAux hay [] = true := by
  cases hay <;> simp [strContainsAux, listStartsWith, List.isEmpty]

theorem strContainsAux_parts (pre mid post : List Char) :
    strContainsAux (pre ++ (mid ++ post)) mid = true := by
  induction pre with
  | nil =>
    cases mid with
    | nil => exact strContainsAux_nilpat post
    | cons a l =>
      simp only [List.nil_append, strContainsAux, List.append_eq]
      have h1 := listStartsWith_self (a :: l) post
      simp only [List.cons_append] at h1
      rw [h1]
      rfl
  | cons p pre2 ih =>
    simp only [List.cons_append, strContainsAux, List.append_eq]
    rw [ih]
    simp

theorem strContains_decomp (hay needle : String) (pre post : List Char)
    (h : hay.toList = pre ++ (needle.toList ++ post)) :
    strContains hay needle = true := by
  unfold strContains
  rw [h]
  exact strContainsAux_parts pre needle.toList post

/-- C5 counterexample: on the cycle `amod → bmod → cmod → amod` the build's
    `CircularImport` message does not mention `bmod`, an element of the full
    cycle chain the claim requires; and on a failed probe the `ModuleNotFound`
    message does not contain the probed candidate `missing.lua`. -/
theorem c5_error_context_counterexample :
    bundleLua fsCyc3 "/src" "main.lua" "D" "T" =
      .error (.circularImport "amod.lua" "/src/cmod.lua") ∧
    strContains (Err.message (.circularImport "amod.lua" "/src/cmod.lua"))
      "bmod" = false ∧
    bundleLua fsMiss "/src" "main.lua" "D" "T" =
      .error (.moduleNotFound "./missing" "/src/main.lua") ∧
    strContains (Err.message (.moduleNotFound "./missing" "/src/main.lua"))
      "missing.lua" = false := by
  refine ⟨by rfl, by decide, by rfl, by decide⟩

/-- C5 (amended): each fatal error carries exactly its two interpolated
    fields — `ModuleNotFound` reports the offending literal and the
    referencing file (but not the probed candidate paths), and
    `CircularImport` reports the offending module and the referencing
    module's path (but not the full cycle chain). -/
theorem c5_error_context (r ref m p : String) :
    Err.message (.moduleNotFound r ref) =
      "Cannot find module \x1b[33m\x27" ++ r ++
        ("\x27 \x1b[0m(at \x1b[34m" ++ ref ++ "\x1b[0m)") ∧
    strContains (Err.message (.moduleNotFound r ref)) r = true ∧
    strContains (Err.message (.moduleNotFound r ref)) ref = true ∧
    Err.message (.circularImport m p) =
      "Circular import detected: \x1b[33m\x27" ++ m ++
        ("\x27 \x1b[0m(at \x1b[34m" ++ p ++ "\x1b[0m)") ∧
    strContains (Err.message (.circularImport m p)) m = true ∧
    strContains (Err.message (.circularImport m p)) p = true := by
  refine ⟨by simp [Err.message, String.append_assoc], ?_, ?_,
          by simp [Err.message, String.append_assoc], ?_, ?_⟩
  · exact strContains_decomp _ r "Cannot find module \x1b[33m\x27".toList
      ("\x27 \x1b[0m(at \x1b[34m" ++ ref ++ "\x1b[0m)").toList
      (by simp [Err.message, String.toList])
  · exact strContains_decomp _ ref
      ("Cannot find module \x1b[33m\x27" ++ r ++ "\x27 \x1b[0m(at \x1b[34m").toList
      "\x1b[0m)".toList
      (by simp [Err.message, String.toList])
  · exact strContains_decomp _ m "Circular import detected: \x1b[33m\x27".toList
      ("\x27 \x1b[0m(at \x1b[34m" ++ p ++ "\x1b[0m)").toList
      (by simp [Err.message, String.toList])
  · exact strContains_decomp _ p
      ("Circular import detected: \x1b[33m\x27" ++ m ++ "\x27 \x1b[0m(at \x1b[34m").toList
      "\x1b[0m)".toList
      (by simp [Err.message, String.toList])

/-! ### C6 — memoization of the emitted loader -/

/-- C6 counterexample: a key present in the bundle table whose module body
    produces `nil`.  The first invocation executes the body (the external
    counter steps to 1) and stores `nil`, which *removes* the table entry;
    the second invocation does not return the same value — it fails with the
    unknown-module error, refuting the claim for this key. -/
theorem c6_loader_memoization_counterexample :
    (importSem (fun _ n => (n + 1, LVal.lnil))
        (fun x => if x = "m" then LVal.lfn 0 else LVal.lnil) "m" 0).1 =
      .ok .lnil ∧
    (importSem (fun _ n => (n + 1, LVal.lnil))
        (fun x => if x = "m" then LVal.lfn 0 else LVal.lnil) "m" 0).2.2 = 1 ∧
    (importSem (fun _ n => (n + 1, LVal.lnil))
        ((importSem (fun _ n => (n + 1, LVal.lnil))
          (fun x => if x = "m" then LVal.lfn 0 else LVal.lnil) "m" 0).2.1)
        "m" 1).1 =
      .error ("Module \"m\" not found in bundle") := by
  refine ⟨rfl, rfl, ?_⟩
  simp [importSem, tupd, ltruthy]

/-- C6 (amended): for every key whose entry is an unevaluated thunk, if the
    value the body produces is neither `nil` nor `false` nor itself a
    function, then invoking the loader twice executes the body exactly once
    and returns that value both times, the first invocation replacing the
    table entry with the produced value; for a key absent from the table the
    loader fails with the unknown-module error. -/
theorem c6_loader_memoization {σ : Type} (callFn : Nat → σ → σ × LVal)
    (t : String → LVal) (name : String) (s : σ) (code : Nat)
    (ht : t name = .lfn code)
    (hnil : (callFn code s).2 ≠ .lnil)
    (hfalse : (callFn code s).2 ≠ .lbool false)
    (hfn : ∀ c, (callFn code s).2 ≠ .lfn c) :
    importSem callFn t name s =
      (.ok (callFn code s).2, tupd t name (callFn code s).2, (callFn code s).1) ∧
    importSem callFn (tupd t name (callFn code s).2) name (callFn code s).1 =
      (.ok (callFn code s).2, tupd t name (callFn code s).2, (callFn code s).1) ∧
    (∀ (t2 : String → LVal) (s2 : σ) (k : String), t2 k = .lnil →
      importSem callFn t2 k s2 =
        (.error ("Module \"" ++ k ++ "\" not found in bundle"), t2, s2)) := by
  refine ⟨?_, ?_, ?_⟩
  · simp [importSem, ht, ltruthy]
  · have htv : tupd t name (callFn code s).2 name = (callFn code s).2 := by
      simp [tupd]
    simp only [importSem, htv]
    rcases hv : (callFn code s).2 with _ | b | n | str | c
    · exact absurd hv hnil
    · cases b
      · exact absurd hv hfalse
      · simp [ltruthy]
    · simp [ltruthy]
    · simp [ltruthy]
    · exact absurd hv (hfn c)
  · intro t2 s2 k h2
    simp [importSem, h2, ltruthy]

/-- Witness for C6 (amended): a counter module body producing `42`. -/
theorem c6_loader_memoization_witness :
    importSem (fun _ n => (n + 1, LVal.lnum 42))
        (fun x => if x = "m" then LVal.lfn 0 else LVal.lnil) "m" 0 =
      (.ok ((fun (_ : Nat) (n : Nat) => (n + 1, LVal.lnum 42)) 0 0).2,
       tupd (fun x => if x = "m" then LVal.lfn 0 else LVal.lnil) "m"
         ((fun (_ : Nat) (n : Nat) => (n + 1, LVal.lnum 42)) 0 0).2,
       ((fun (_ : Nat) (n : Nat) => (n + 1, LVal.lnum 42)) 0 0).1) ∧
    importSem (fun _ n => (n + 1, LVal.lnum 42))
        (tupd (fun x => if x = "m" then LVal.lfn 0 else LVal.lnil) "m"
          ((fun (_ : Nat) (n : Nat) => (n + 1, LVal.lnum 42)) 0 0).2)
        "m"
        ((fun (_ : Nat) (n : Nat) => (n + 1, LVal.lnum 42)) 0 0).1 =
      (.ok ((fun (_ : Nat) (n : Nat) => (n + 1, LVal.lnum 42)) 0 0).2,
       tupd (fun x => if x = "m" then LVal.lfn 0 else LVal.lnil) "m"
         ((fun (_ : Nat) (n : Nat) => (n + 1, LVal.lnum 42)) 0 0).2,
       ((fun (_ : Nat) (n : Nat) => (n + 1, LVal.lnum 42)) 0 0).1) ∧
    (∀ (t2 : String → LVal) (s2 : Nat) (k : String), t2 k = .lnil →
      importSem (fun _ n => (n + 1, LVal.lnum 42)) t2 k s2 =
        (.error ("Module \"" ++ k ++ "\" not found in bundle"), t2, s2)) :=
  c6_loader_memoization (fun _ n => (n + 1, LVal.lnum 42))
    (fun x => if x = "m" then LVal.lfn 0 else LVal.lnil) "m" 0 0
    (by decide) (by decide) (by decide) (by intro c; simp)

/-! ### C7 — the emitted host bridge -/

/-- C7 counterexample: a continuation that records the identity it observes
    runs while the identity is still `2` (the claim requires it restored
    first), and a raising environment loader leaves the identity at `2`
    (the claim requires restoration on all paths, success or failure). -/
theorem c7_host_bridge_counterexample :
    (gameRequireSem (fun st => (st, .ok (.lnum 5)))
        (some (fun _ st => ({ st with user := some st.identity }, .ok .lnil)))
        "M" ⟨7, (none : Option Int)⟩).1.user = some 2 ∧
    (gameRequireSem (fun st => (st, .ok (.lnum 5)))
        (some (fun _ st => ({ st with user := some st.identity }, .ok .lnil)))
        "M" ⟨7, (none : Option Int)⟩).2 = .ok (.lnum 5) ∧
    (gameRequireSem (fun st => (st, .error "loader raised"))
        (none : Option (LVal → HState (Option Int) →
          HState (Option Int) × Except String LVal))
        "M" ⟨7, (none : Option Int)⟩).1.identity = 2 := by
  refine ⟨?_, ?_, ?_⟩ <;> simp [gameRequireSem]

/-- C7 (amended): the bridge sets the identity to `2` before invoking the
    environment loader; the continuation (when supplied and the value is
    non-nil) is invoked *before* the identity is restored; the identity is
    restored to `7` only on the paths where the loader and the continuation
    return normally (including the nil-value path, which then raises the
    fatal error); when the loader or continuation raises, the error
    propagates and the identity is not restored. -/
theorem c7_host_bridge {σ : Type}
    (envLoad : HState σ → HState σ × Except String LVal)
    (cb : LVal → HState σ → HState σ × Except String LVal)
    (moduleArg : String) (st : HState σ) :
    (∀ st2 e, envLoad { st with identity := 2 } = (st2, .error e) →
      ∀ callback, gameRequireSem envLoad callback moduleArg st = (st2, .error e)) ∧
    (∀ st2 v, envLoad { st with identity := 2 } = (st2, .ok v) → v ≠ .lnil →
      gameRequireSem envLoad none moduleArg st = ({ st2 with identity := 7 }, .ok v)) ∧
    (∀ st2 v st3 w, envLoad { st with identity := 2 } = (st2, .ok v) → v ≠ .lnil →
      cb v st2 = (st3, .ok w) →
      gameRequireSem envLoad (some cb) moduleArg st = ({ st3 with identity := 7 }, .ok v)) ∧
    (∀ st2 v st3 e, envLoad { st with identity := 2 } = (st2, .ok v) → v ≠ .lnil →
      cb v st2 = (st3, .error e) →
      gameRequireSem envLoad (some cb) moduleArg st = (st3, .error e)) ∧
    (∀ st2 callback, envLoad { st with identity := 2 } = (st2, .ok .lnil) →
      gameRequireSem envLoad callback moduleArg st =
        ({ st2 with identity := 7 },
         .error ("Failed to require game module \"" ++ moduleArg ++ "\""))) := by
  refine ⟨?_, ?_, ?_, ?_, ?_⟩
  · intro st2 e h callback
    simp [gameRequireSem, h]
  · intro st2 v h hv
    simp [gameRequireSem, h, hv]
  · intro st2 v st3 w h hv hcb
    simp [gameRequireSem, h, hv, hcb]
  · intro st2 v st3 e h hv hcb
    simp [gameRequireSem, h, hv, hcb]
  · intro st2 callback h
    cases callback <;> simp [gameRequireSem, h]

/-- Witness for C7 (amended): all five paths at concrete loaders/callbacks. -/
theorem c7_host_bridge_witness :
    gameRequireSem (fun st => (st, .error "boom"))
        (none : Option (LVal → HState Nat → HState Nat × Except String LVal))
        "M" ⟨7, 0⟩ = (⟨2, 0⟩, .error "boom") ∧
    gameRequireSem (fun st => (st, .ok (.lnum 5))) none "M" (⟨7, 0⟩ : HState Nat) =
      ((⟨7, 0⟩ : HState Nat), .ok (.lnum 5)) ∧
    gameRequireSem (fun st => (st, .ok (.lnum 5)))
        (some (fun _ st => ({ st with user := st.user + 1 }, .ok .lnil)))
        "M" (⟨7, 0⟩ : HState Nat) = ((⟨7, 1⟩ : HState Nat), .ok (.lnum 5)) ∧
    gameRequireSem (fun st => (st, .ok (.lnum 5)))
        (some (fun _ st => (st, .error "cb boom")))
        "M" (⟨7, 0⟩ : HState Nat) = ((⟨2, 0⟩ : HState Nat), .error "cb boom") ∧
    gameRequireSem (fun st => (st, .ok .lnil)) none "M" (⟨7, 0⟩ : HState Nat) =
      ((⟨7, 0⟩ : HState Nat),
       .error ("Failed to require game module \"M\"")) := by
  refine ⟨?_, ?_, ?_, ?_, ?_⟩
  · exact (c7_host_bridge (fun st => (st, .error "boom"))
      (fun _ st => (st, .ok .lnil)) "M" ⟨7, 0⟩).1 ⟨2, 0⟩ "boom" rfl none
  · exact (c7_host_bridge (fun st => (st, .ok (.lnum 5)))
      (fun _ st => (st, .ok .lnil)) "M" ⟨7, 0⟩).2.1 ⟨2, 0⟩ (.lnum 5) rfl (by decide)
  · exact (c7_host_bridge (fun st => (st, .ok (.lnum 5)))
      (fun _ st => ({ st with user := st.user + 1 }, .ok .lnil)) "M" ⟨7, 0⟩).2.2.1
      ⟨2, 0⟩ (.lnum 5) ⟨2, 1⟩ .lnil rfl (by decide) rfl
  · exact (c7_host_bridge (fun st => (st, .ok (.lnum 5)))
      (fun _ st => (st, .error "cb boom")) "M" ⟨7, 0⟩).2.2.2.1
      ⟨2, 0⟩ (.lnum 5) ⟨2, 0⟩ "cb boom" rfl (by decide) rfl
  · exact (c7_host_bridge (fun st => (st, .ok .lnil))
      (fun _ st => (st, .ok .lnil)) "M" ⟨7, 0⟩).2.2.2.2 ⟨2, 0⟩ none rfl

/-! ### Association-list and graph lemmas for the traversal invariant -/

theorem lookup_eq_some_mem {l : List (String × String)} {p c : String}
    (h : l.lookup p = some c) : (p, c) ∈ l := by
  induction l with
  | nil => cases h
  | cons kv rest ih =>
    obtain ⟨k, v⟩ := kv
    rw [List.lookup] at h
    by_cases he : (p == k) = true
    · rw [he] at h
      simp only at h
      cases h
      have hpk : p = k := beq_iff_eq.mp he
      subst hpk
      exact List.mem_cons_self _ _
    · rw [Bool.not_eq_true] at he
      rw [he] at h
      simp only at h
      exact List.mem_cons_of_mem _ (ih h)

theorem mem_lookup_eq_some {l : List (String × String)}
    (hnd : (l.map Prod.fst).Nodup) {p c : String} (h : (p, c) ∈ l) :
    l.lookup p = some c := by
  induction l with
  | nil => cases h
  | cons kv rest ih =>
    obtain ⟨k, v⟩ := kv
    simp only [List.map_cons, List.nodup_cons] at hnd
    rw [List.lookup]
    rcases List.mem_cons.mp h with heq | hmem
    · cases heq
      rw [show (p == p) = true from beq_self_eq_true p]
    · have hpk : ¬ p = k := by
        intro hE
        subst hE
        exact hnd.1 (List.mem_map.mpr ⟨(p, c), hmem, rfl⟩)
      rw [show (p == k) = false from beq_eq_false_iff_ne.mpr hpk]
      exact ih hnd.2 hmem

theorem lookup_isSome_iff {l : List (String × String)} {p : String} :
    ((l.lookup p).isSome = true) ↔ p ∈ l.map Prod.fst := by
  induction l with
  | nil => simp [List.lookup]
  | cons kv rest ih =>
    obtain ⟨k, v⟩ := kv
    rw [List.lookup]
    by_cases he : p = k
    · subst he
      rw [show (p == p) = true from beq_self_eq_true p]
      simp
    · rw [show (p == k) = false from beq_eq_false_iff_ne.mpr he]
      simpa [he] using ih

theorem insertMod_fresh {mods : List (String × String)} {k v : String}
    (h : ¬ k ∈ keysOf mods) : insertMod mods k v = mods ++ [(k, v)] := by
  unfold insertMod
  rw [if_neg]
  intro hs
  exact h (lookup_isSome_iff.mp hs)

theorem nodup_subset_length {l1 l2 : List String} (hnd : l1.Nodup)
    (hsub : ∀ x ∈ l1, x ∈ l2) : l1.length ≤ l2.length :=
  (List.subperm_of_subset hnd hsub).length_le

theorem pathTo_snoc {fs : Fs} {baseDir : String} {a b c : String}
    (h : PathTo fs baseDir a b) (he : c ∈ edgesA fs baseDir b) :
    PathTo fs baseDir a c := by
  induction h with
  | refl p => exact .step he (.refl c)
  | step h1 _ ih => exact .step h1 (ih he)

theorem cyc_rotate {fs : Fs} {baseDir : String} {p q : String}
    (he : q ∈ edgesA fs baseDir p) (hp : PathTo fs baseDir q p) :
    CycThru fs baseDir q := by
  cases hp with
  | refl => exact ⟨_, he, .refl _⟩
  | step h1 h2 => exact ⟨_, h1, pathTo_snoc h2 he⟩

theorem closed_reach {fs : Fs} {baseDir : String} {V : List String}
    (hc : ∀ v ∈ V, ∀ z ∈ edgesA fs baseDir v, z ∈ V) {p q : String}
    (hp : p ∈ V) (h : PathTo fs baseDir p q) : q ∈ V := by
  induction h with
  | refl => exact hp
  | step h1 _ ih => exact ih (hc _ hp _ h1)

theorem domainOk_spec {fs : Fs} {baseDir : String}
    (hd : domainOkB fs baseDir = true) {p c : String} (hm : (p, c) ∈ fs) :
    ∃ nc subs, parseAndTransform fs baseDir c p = .ok (nc, subs) ∧
      ∀ s ∈ subs, pathResolve baseDir s ∈ domF fs := by
  unfold domainOkB at hd
  have h1 := List.all_eq_true.mp hd (p, c) hm
  dsimp only at h1
  cases hp : parseAndTransform fs baseDir c p with
  | ok pr =>
    obtain ⟨nc, subs⟩ := pr
    rw [hp] at h1
    refine ⟨nc, subs, rfl, ?_⟩
    intro s hs
    exact of_decide_eq_true (List.all_eq_true.mp h1 s hs)
  | error e =>
    rw [hp] at h1
    cases h1

theorem specDeps_eq {fs : Fs} {baseDir p c nc : String} {subs : List String}
    (hl : lookupFs fs p = some c)
    (hp : parseAndTransform fs baseDir c p = .ok (nc, subs)) :
    specDeps fs baseDir p = subs := by
  unfold specDeps
  rw [hl]
  dsimp only
  rw [hp]

theorem absKeys_of_key {baseDir : String} {mods : List (String × String)}
    {k : String} (hk : k ∈ keysOf mods) :
    pathResolve baseDir k ∈ absKeys baseDir mods := by
  unfold keysOf at hk
  unfold absKeys
  obtain ⟨kv, hkv, rfl⟩ := List.mem_map.mp hk
  exact List.mem_map.mpr ⟨kv, hkv, rfl⟩

/-- The dependency loop preserves the invariant and accumulates the posts,
    given the per-module induction hypothesis `IH`. -/
theorem loadList_ok (fs : Fs) (baseDir : String) (R : String → Prop) (fuel : Nat)
    (IH : ∀ m stack prev st st2,
      InvS fs baseDir stack st →
      (∀ k ∈ keysOf st.modules, R (pathResolve baseDir k)) →
      R (pathResolve baseDir m) →
      loadModule fs baseDir fuel m stack prev st = .ok st2 →
      ModPost fs baseDir R fuel m stack st st2) :
    ∀ (ds : List String) (stack : List String) (prev : String) (st st2 : BState),
      InvS fs baseDir stack st →
      (∀ k ∈ keysOf st.modules, R (pathResolve baseDir k)) →
      (∀ d ∈ ds, R (pathResolve baseDir d)) →
      loadList (loadModule fs baseDir fuel) ds stack prev st = .ok st2 →
      ListPost fs baseDir R fuel ds stack st st2 := by
  intro ds
  induction ds with
  | nil =>
    intro stack prev st st2 hinv hkr _ hok
    simp only [loadList] at hok
    cases hok
    exact ⟨fun x hx => hx, fun d hd => absurd hd (List.not_mem_nil d), hinv, hkr,
           [], (List.append_nil _).symm,
           fun k hk => absurd hk (by simp [keysOf]),
           fun v hv => Or.inl hv, rfl⟩
  | cons d ds2 ih =>
    intro stack prev st st2 hinv hkr hdr hok
    simp only [loadList] at hok
    cases hlm : loadModule fs baseDir fuel d stack prev st with
    | error e => simp only [hlm] at hok; exact Except.noConfusion hok
    | ok st1 =>
      simp only [hlm] at hok
      have hmp := IH d stack prev st st1 hinv hkr
        (hdr d (List.mem_cons_self _ _)) hlm
      obtain ⟨hsub1, hdvis1, hinv1, hkr1, tail1, hmods1, htk1, hch1, hdfs1⟩ := hmp
      have hlp := ih stack prev st1 st2 hinv1 hkr1
        (fun d2 hd2 => hdr d2 (List.mem_cons_of_mem _ hd2)) hok
      obtain ⟨hsub2, hdvis2, hinv2, hkr2, tail2, hmods2, htk2, hch2, hdfs2⟩ := hlp
      refine ⟨hsub1.trans hsub2, ?_, hinv2, hkr2, tail1 ++ tail2, ?_, ?_, ?_, ?_⟩
      · intro d2 hd2
        rcases List.mem_cons.mp hd2 with rfl | hmem
        · exact hsub2 hdvis1
        · exact hdvis2 d2 hmem
      · rw [hmods2, hmods1, List.append_assoc]
      · intro k hk
        simp only [keysOf, List.map_append] at hk
        rcases List.mem_append.mp hk with h1 | h2
        · exact hsub2 (htk1 k h1)
        · exact htk2 k h2
      · intro v hv
        rcases hch2 v hv with h1 | ⟨k, hk, hkv⟩
        · rcases hch1 v h1 with h0 | ⟨k, hk, hkv⟩
          · exact Or.inl h0
          · exact Or.inr ⟨k, by
              simp only [keysOf, List.map_append]
              exact List.mem_append_left _ hk, hkv⟩
        · exact Or.inr ⟨k, by
            simp only [keysOf, List.map_append]
            exact List.mem_append_right _ hk, hkv⟩
      · rw [dfsGo]
        try dsimp only
        rw [hdfs1]
        try dsimp only
        rw [hdfs2]
        simp only [keysOf, List.map_append]

/-- Main induction: a successful `loadModule` run establishes `ModPost`. -/
theorem loadModule_ok (fs : Fs) (baseDir : String) (R : String → Prop)
    (hR : ∀ p q, R p → q ∈ edgesA fs baseDir p → R q)
    (hd : domainOkB fs baseDir = true)
    (hnd : (domF fs).Nodup) :
    ∀ (fuel : Nat) (m : String) (stack : List String) (prev : String)
      (st st2 : BState),
      InvS fs baseDir stack st →
      (∀ k ∈ keysOf st.modules, R (pathResolve baseDir k)) →
      R (pathResolve baseDir m) →
      loadModule fs baseDir fuel m stack prev st = .ok st2 →
      ModPost fs baseDir R fuel m stack st st2 := by
  intro fuel
  induction fuel with
  | zero =>
    intro m stack prev st st2 _ _ _ hok
    simp only [loadModule] at hok
    exact Except.noConfusion hok
  | succ f ihf =>
    intro m stack prev st st2 hinv hkr hrm hok
    rw [loadModule] at hok
    try dsimp only at hok
    by_cases hs : pathResolve baseDir m ∈ stack
    · rw [if_pos hs] at hok; cases hok
    · rw [if_neg hs] at hok
      by_cases hv : pathResolve baseDir m ∈ st.visited
      · rw [if_pos hv] at hok
        cases hok
        refine ⟨fun x hx => hx, hv, hinv, hkr, [], (List.append_nil _).symm,
                fun k hk => absurd hk (by simp [keysOf]),
                fun v hvv => Or.inl hvv, ?_⟩
        rw [dfsMod]
        try dsimp only
        rw [if_pos ?memseen]
        case memseen =>
          obtain ⟨k, hk, hke⟩ := hinv.visCov _ hv
          rw [← hke]
          exact absKeys_of_key hk
        simp [keysOf]
      · rw [if_neg hv] at hok
        cases hl : lookupFs fs (pathResolve baseDir m) with
        | none => simp only [hl] at hok; exact Except.noConfusion hok
        | some content =>
          simp only [hl] at hok
          cases hp : parseAndTransform fs baseDir content (pathResolve baseDir m) with
          | error e => simp only [hp] at hok; exact Except.noConfusion hok
          | ok pr =>
            obtain ⟨nc, subs⟩ := pr
            simp only [hp] at hok
            cases hll : loadList (loadModule fs baseDir f) subs
                (pathResolve baseDir m :: stack) (pathResolve baseDir m)
                { st with modules := insertMod st.modules m nc } with
            | error e => simp only [hll] at hok; exact Except.noConfusion hok
            | ok st3 =>
              simp only [hll] at hok
              cases hok
              have hmem : (pathResolve baseDir m, content) ∈ fs :=
                lookup_eq_some_mem hl
              have habsdom : pathResolve baseDir m ∈ domF fs :=
                List.mem_map.mpr ⟨_, hmem, rfl⟩
              obtain ⟨nc2, subs2, hp2, hsubs⟩ := domainOk_spec hd hmem
              rw [hp] at hp2
              cases hp2
              have hspec : specDeps fs baseDir (pathResolve baseDir m) = subs :=
                specDeps_eq hl hp
              have hedges : edgesA fs baseDir (pathResolve baseDir m) =
                  subs.map (pathResolve baseDir) := by
                unfold edgesA; rw [hspec]
              have hfresh : ¬ m ∈ keysOf st.modules := by
                intro hk
                rcases hinv.keysCov m hk with h1 | h1
                exacts [hs h1, hv h1]
              have hins : insertMod st.modules m nc = st.modules ++ [(m, nc)] :=
                insertMod_fresh hfresh
              have hkeys' : keysOf (insertMod st.modules m nc) =
                  keysOf st.modules ++ [m] := by
                rw [hins]
                simp [keysOf]
              have hinv2 : InvS fs baseDir (pathResolve baseDir m :: stack)
                  { st with modules := insertMod st.modules m nc } := by
                refine ⟨List.nodup_cons.mpr ⟨hs, hinv.stackNd⟩, ?_, ?_, ?_, ?_,
                        hinv.visClosed, hinv.visNoCyc⟩
                · intro p hp3
                  rcases List.mem_cons.mp hp3 with rfl | hmem2
                  exacts [habsdom, hinv.stackDom p hmem2]
                · show (keysOf (insertMod st.modules m nc)).Nodup
                  rw [hkeys']
                  simp only [List.nodup_append, List.nodup_singleton, true_and]
                  exact ⟨hinv.keysNd, by simpa [List.disjoint_singleton] using hfresh⟩
                · intro k hk
                  rw [show keysOf ({ st with modules := insertMod st.modules m nc } : BState).modules = keysOf st.modules ++ [m] from hkeys'] at hk
                  rcases List.mem_append.mp hk with h1 | h1
                  · rcases hinv.keysCov k h1 with h2 | h2
                    · exact Or.inl (List.mem_cons_of_mem _ h2)
                    · exact Or.inr h2
                  · have hkm := List.mem_singleton.mp h1
                    subst hkm
                    exact Or.inl (List.mem_cons_self _ _)
                · intro v hv2
                  obtain ⟨k, hk, hke⟩ := hinv.visCov v hv2
                  exact ⟨k, by rw [hkeys']; exact List.mem_append_left _ hk, hke⟩
              have hkr2 : ∀ k ∈ keysOf (insertMod st.modules m nc),
                  R (pathResolve baseDir k) := by
                intro k hk
                rw [hkeys'] at hk
                rcases List.mem_append.mp hk with h1 | h1
                · exact hkr k h1
                · have hkm := List.mem_singleton.mp h1
                  subst hkm
                  exact hrm
              have hdr : ∀ d2 ∈ subs, R (pathResolve baseDir d2) := by
                intro d2 hd2
                exact hR _ _ hrm (by
                  rw [hedges]
                  exact List.mem_map.mpr ⟨d2, hd2, rfl⟩)
              have hlp := loadList_ok fs baseDir R f ihf subs
                (pathResolve baseDir m :: stack) (pathResolve baseDir m)
                { st with modules := insertMod st.modules m nc } st3
                hinv2 hkr2 hdr hll
              obtain ⟨hsub1, hdvis, hinv3, hkr3, tail2, hmods3, htk2, hch3,
                      hdfs2⟩ := hlp
              have hmkeys3 : m ∈ keysOf st3.modules := by
                rw [hmods3]
                simp only [keysOf, List.map_append]
                refine List.mem_append_left _ ?_
                rw [show (({ st with modules := insertMod st.modules m nc } : BState).modules).map Prod.fst = keysOf st.modules ++ [m] from hkeys']
                exact List.mem_append_right _ (List.mem_singleton_self m)
              refine ⟨?_, List.mem_cons_self _ _, ?_, hkr3, (m, nc) :: tail2,
                      ?_, ?_, ?_, ?_⟩
              · exact fun x hx => List.mem_cons_of_mem _ (hsub1 hx)
              · -- the invariant at the original stack, after marking m visited
                refine ⟨hinv.stackNd, hinv.stackDom, hinv3.keysNd, ?_, ?_, ?_, ?_⟩
                · intro k hk
                  rcases hinv3.keysCov k hk with h1 | h1
                  · rcases List.mem_cons.mp h1 with h2 | h2
                    · exact Or.inr (h2 ▸ List.mem_cons_self _ _)
                    · exact Or.inl h2
                  · exact Or.inr (List.mem_cons_of_mem _ h1)
                · intro v hv2
                  rcases List.mem_cons.mp hv2 with rfl | h2
                  · exact ⟨m, hmkeys3, rfl⟩
                  · exact hinv3.visCov v h2
                · intro v hv2 z hz
                  rcases List.mem_cons.mp hv2 with rfl | h2
                  · rw [hedges] at hz
                    obtain ⟨d2, hd2, rfl⟩ := List.mem_map.mp hz
                    exact List.mem_cons_of_mem _ (hdvis d2 hd2)
                  · exact List.mem_cons_of_mem _ (hinv3.visClosed v h2 z hz)
                · intro v hv2 hcyc
                  rcases List.mem_cons.mp hv2 with rfl | h2
                  · obtain ⟨q, hq, hpq⟩ := hcyc
                    have hq2 : q ∈ st3.visited := by
                      rw [hedges] at hq
                      obtain ⟨d2, hd2, rfl⟩ := List.mem_map.mp hq
                      exact hdvis d2 hd2
                    exact hinv3.visNoCyc q hq2 (cyc_rotate hq (by exact hpq))
                  · exact hinv3.visNoCyc v h2 hcyc
              · show st3.modules = st.modules ++ ((m, nc) :: tail2)
                rw [hmods3]
                show insertMod st.modules m nc ++ tail2 = _
                rw [hins, List.append_assoc]
                rfl
              · intro k hk
                simp only [keysOf, List.map_cons] at hk
                rcases List.mem_cons.mp hk with rfl | h2
                · exact List.mem_cons_self _ _
                · exact List.mem_cons_of_mem _ (htk2 k h2)
              · intro v hv2
                rcases List.mem_cons.mp hv2 with rfl | h2
                · exact Or.inr ⟨m, by simp [keysOf], rfl⟩
                · rcases hch3 v h2 with h3 | ⟨k, hk, hke⟩
                  · exact Or.inl h3
                  · exact Or.inr ⟨k, by
                      simp only [keysOf, List.map_cons]
                      exact List.mem_cons_of_mem _ hk, hke⟩
              · rw [dfsMod]
                try dsimp only
                rw [if_neg ?notseen]
                case notseen =>
                  intro hmem3
                  unfold absKeys at hmem3
                  obtain ⟨kv, hkv, hkve⟩ := List.mem_map.mp hmem3
                  have hkk : kv.1 ∈ keysOf st.modules :=
                    List.mem_map.mpr ⟨kv, hkv, rfl⟩
                  rcases hinv.keysCov _ hkk with h1 | h1
                  · rw [hkve] at h1; exact hs h1
                  · rw [hkve] at h1; exact hv h1
                rw [hspec]
                have hseen : absKeys baseDir st.modules ++ [pathResolve baseDir m] =
                    absKeys baseDir (insertMod st.modules m nc) := by
                  rw [hins]
                  simp [absKeys]
                rw [hseen, hdfs2]
                simp [keysOf]

/-- The invariant after pushing a fresh module and inserting it into the
    table (steps 4–8 of the traversal). -/
theorem fresh_inv (fs : Fs) (baseDir : String) {stack : List String}
    {st : BState} {m content nc : String} {subs : List String}
    (hinv : InvS fs baseDir stack st)
    (hs : pathResolve baseDir m ∉ stack)
    (hv : pathResolve baseDir m ∉ st.visited)
    (hl : lookupFs fs (pathResolve baseDir m) = some content)
    (hp : parseAndTransform fs baseDir content (pathResolve baseDir m) =
      .ok (nc, subs)) :
    InvS fs baseDir (pathResolve baseDir m :: stack)
      { st with modules := insertMod st.modules m nc } := by
  have hmem : (pathResolve baseDir m, content) ∈ fs := lookup_eq_some_mem hl
  have habsdom : pathResolve baseDir m ∈ domF fs := List.mem_map.mpr ⟨_, hmem, rfl⟩
  have hfresh : ¬ m ∈ keysOf st.modules := by
    intro hk
    rcases hinv.keysCov m hk with h1 | h1
    exacts [hs h1, hv h1]
  have hins : insertMod st.modules m nc = st.modules ++ [(m, nc)] :=
    insertMod_fresh hfresh
  have hkeys' : keysOf (insertMod st.modules m nc) = keysOf st.modules ++ [m] := by
    rw [hins]; simp [keysOf]
  refine ⟨List.nodup_cons.mpr ⟨hs, hinv.stackNd⟩, ?_, ?_, ?_, ?_,
          hinv.visClosed, hinv.visNoCyc⟩
  · intro p hp3
    rcases List.mem_cons.mp hp3 with rfl | hmem2
    exacts [habsdom, hinv.stackDom p hmem2]
  · show (keysOf (insertMod st.modules m nc)).Nodup
    rw [hkeys']
    simp only [List.nodup_append, List.nodup_singleton, true_and]
    exact ⟨hinv.keysNd, by simpa [List.disjoint_singleton] using hfresh⟩
  · intro k hk
    rw [show keysOf ({ st with modules := insertMod st.modules m nc } : BState).modules = keysOf st.modules ++ [m] from hkeys'] at hk
    rcases List.mem_append.mp hk with h1 | h1
    · rcases hinv.keysCov k h1 with h2 | h2
      · exact Or.inl (List.mem_cons_of_mem _ h2)
      · exact Or.inr h2
    · have hkm := List.mem_singleton.mp h1
      subst hkm
      exact Or.inl (List.mem_cons_self _ _)
  · intro v hv2
    obtain ⟨k, hk, hke⟩ := hinv.visCov v hv2
    exact ⟨k, by rw [hkeys']; exact List.mem_append_left _ hk, hke⟩

/-- With a well-formed module graph and enough fuel, the dependency loop can
    only return normally or fail with `CircularImport`. -/
theorem loadList_errs (fs : Fs) (baseDir : String)
    (hd : domainOkB fs baseDir = true) (hnd : (domF fs).Nodup) (fuel : Nat)
    (IHm : ∀ (m : String) (stack : List String) (prev : String) (st : BState),
      InvS fs baseDir stack st →
      pathResolve baseDir m ∈ domF fs →
      fs.length + 1 ≤ fuel + stack.length →
      (∃ st2, loadModule fs baseDir fuel m stack prev st = .ok st2) ∨
      (∃ n p, loadModule fs baseDir fuel m stack prev st =
        .error (.circularImport n p))) :
    ∀ (ds : List String) (stack : List String) (prev : String) (st : BState),
      InvS fs baseDir stack st →
      (∀ d ∈ ds, pathResolve baseDir d ∈ domF fs) →
      fs.length + 1 ≤ fuel + stack.length →
      (∃ st2, loadList (loadModule fs baseDir fuel) ds stack prev st = .ok st2) ∨
      (∃ n p, loadList (loadModule fs baseDir fuel) ds stack prev st =
        .error (.circularImport n p)) := by
  intro ds
  induction ds with
  | nil => intro stack prev st _ _ _; exact Or.inl ⟨st, rfl⟩
  | cons d ds2 ih =>
    intro stack prev st hinv hdom hfuel
    rcases IHm d stack prev st hinv (hdom d (List.mem_cons_self _ _)) hfuel with
      ⟨st1, h1⟩ | ⟨n, p, h1⟩
    · have hmp := loadModule_ok fs baseDir (fun _ => True)
        (fun _ _ _ _ => trivial) hd hnd fuel d stack prev st st1 hinv
        (fun _ _ => trivial) trivial h1
      obtain ⟨_, _, hinv1, -, -⟩ := hmp
      rcases ih stack prev st1 hinv1
        (fun d2 hd2 => hdom d2 (List.mem_cons_of_mem _ hd2)) hfuel with
        ⟨st2, h2⟩ | ⟨n, p, h2⟩
      · exact Or.inl ⟨st2, by simp only [loadList, h1]; exact h2⟩
      · exact Or.inr ⟨n, p, by simp only [loadList, h1]; exact h2⟩
    · exact Or.inr ⟨n, p, by simp only [loadList, h1]⟩

/-- With a well-formed module graph and enough fuel, `loadModule` can only
    return normally or fail with `CircularImport` (never `IoError`,
    `ModuleNotFound` or fuel exhaustion). -/
theorem loadModule_errs (fs : Fs) (baseDir : String)
    (hd : domainOkB fs baseDir = true) (hnd : (domF fs).Nodup) :
    ∀ (fuel : Nat) (m : String) (stack : List String) (prev : String)
      (st : BState),
      InvS fs baseDir stack st →
      pathResolve baseDir m ∈ domF fs →
      fs.length + 1 ≤ fuel + stack.length →
      (∃ st2, loadModule fs baseDir fuel m stack prev st = .ok st2) ∨
      (∃ n p, loadModule fs baseDir fuel m stack prev st =
        .error (.circularImport n p)) := by
  intro fuel
  induction fuel with
  | zero =>
    intro m stack prev st hinv _ hfuel
    exfalso
    have hle : stack.length ≤ (domF fs).length :=
      nodup_subset_length hinv.stackNd hinv.stackDom
    have hlen : (domF fs).length = fs.length := List.length_map _ _
    omega
  | succ f ihf =>
    intro m stack prev st hinv hdom hfuel
    rw [loadModule]
    try dsimp only
    by_cases hs : pathResolve baseDir m ∈ stack
    · rw [if_pos hs]; exact Or.inr ⟨m, prev, rfl⟩
    · rw [if_neg hs]
      by_cases hv : pathResolve baseDir m ∈ st.visited
      · rw [if_pos hv]; exact Or.inl ⟨st, rfl⟩
      · rw [if_neg hv]
        have hsome : (lookupFs fs (pathResolve baseDir m)).isSome = true := by
          unfold lookupFs
          exact lookup_isSome_iff.mpr hdom
        obtain ⟨content, hl⟩ := Option.isSome_iff_exists.mp hsome
        have hmem : (pathResolve baseDir m, content) ∈ fs := lookup_eq_some_mem hl
        obtain ⟨nc, subs, hp, hsubs⟩ := domainOk_spec hd hmem
        simp only [hl, hp]
        have hinv2 := fresh_inv fs baseDir hinv hs hv hl hp
        rcases loadList_errs fs baseDir hd hnd f ihf subs
          (pathResolve baseDir m :: stack) (pathResolve baseDir m)
          { st with modules := insertMod st.modules m nc } hinv2
          (fun d2 hd2 => hsubs d2 hd2)
          (by simp only [List.length_cons]; omega) with
          ⟨st3, h3⟩ | ⟨n, p, h3⟩
        · exact Or.inl ⟨{ st3 with visited := pathResolve baseDir m :: st3.visited },
            by simp only [h3]⟩
        · exact Or.inr ⟨n, p, by simp only [h3]⟩

theorem loadEntry_eq_loadList (fs : Fs) (baseDir : String) (fuel : Nat) :
    ∀ (ds : List String) (ep : String) (st : BState),
      loadEntry fs baseDir fuel ds ep st =
        loadList (loadModule fs baseDir fuel) ds [] ep st := by
  intro ds
  induction ds with
  | nil => intro ep st; rfl
  | cons d ds2 ih =>
    intro ep st
    rw [loadEntry, loadList]
    cases loadModule fs baseDir fuel d [] ep st with
    | ok st1 => exact ih ep st1
    | error e => rfl

theorem initInv (fs : Fs) (baseDir : String) :
    InvS fs baseDir [] { visited := [], modules := [] } := by
  refine ⟨List.nodup_nil, ?_, ?_, ?_, ?_, ?_, ?_⟩
  · intro x hx; exact absurd hx (List.not_mem_nil x)
  · show (keysOf ([] : List (String × String))).Nodup
    simp [keysOf]
  · intro x hx; exact absurd hx (by simp [keysOf])
  · intro x hx; exact absurd hx (List.not_mem_nil x)
  · intro x hx; exact absurd hx (List.not_mem_nil x)
  · intro x hx; exact absurd hx (List.not_mem_nil x)

/-- The entry-dependency loop, analysed through `loadList_ok`. -/
theorem loadEntry_ok (fs : Fs) (baseDir : String) (R : String → Prop)
    (hR : ∀ p q, R p → q ∈ edgesA fs baseDir p → R q)
    (hd : domainOkB fs baseDir = true) (hnd : (domF fs).Nodup)
    (fuel : Nat) (ds : List String) (ep : String) (st2 : BState)
    (hds : ∀ d ∈ ds, R (pathResolve baseDir d))
    (hok : loadEntry fs baseDir fuel ds ep { visited := [], modules := [] } =
      .ok st2) :
    ListPost fs baseDir R fuel ds [] { visited := [], modules := [] } st2 := by
  rw [loadEntry_eq_loadList] at hok
  exact loadList_ok fs baseDir R fuel
    (fun m stack prev st st3 => loadModule_ok fs baseDir R hR hd hnd fuel
      m stack prev st st3)
    ds [] ep _ st2 (initInv fs baseDir)
    (fun k hk => absurd hk (by simp [keysOf])) hds hok

/-- The entry-dependency loop, error-classified. -/
theorem loadEntry_errs (fs : Fs) (baseDir : String)
    (hd : domainOkB fs baseDir = true) (hnd : (domF fs).Nodup)
    (ds : List String) (ep : String)
    (hdom : ∀ d ∈ ds, pathResolve baseDir d ∈ domF fs) :
    (∃ st2, loadEntry fs baseDir (fs.length + 1) ds ep
      { visited := [], modules := [] } = .ok st2) ∨
    (∃ n p, loadEntry fs baseDir (fs.length + 1) ds ep
      { visited := [], modules := [] } = .error (.circularImport n p)) := by
  rw [loadEntry_eq_loadList]
  exact loadList_errs fs baseDir hd hnd (fs.length + 1)
    (loadModule_errs fs baseDir hd hnd (fs.length + 1))
    ds [] ep _ (initInv fs baseDir) hdom (by simp)

/-- Dissecting a successful `buildModules` run. -/
theorem buildModules_ok_elim {fs : Fs} {baseDir entryFile : String}
    {st : BState} {e : String}
    (hok : buildModules fs baseDir entryFile = .ok (st, e)) :
    ∃ content entrySubs,
      lookupFs fs (pathJoin baseDir entryFile) = some content ∧
      parseAndTransform fs baseDir content (pathJoin baseDir entryFile) =
        .ok (e, entrySubs) ∧
      loadEntry fs baseDir (fs.length + 1) entrySubs (pathJoin baseDir entryFile)
        { visited := [], modules := [] } = .ok st := by
  unfold buildModules at hok
  cases hl : lookupFs fs (pathJoin baseDir entryFile) with
  | none => simp only [hl] at hok; exact Except.noConfusion hok
  | some content =>
    simp only [hl] at hok
    cases hp : parseAndTransform fs baseDir content (pathJoin baseDir entryFile) with
    | error e2 => simp only [hp] at hok; exact Except.noConfusion hok
    | ok pr =>
      obtain ⟨te, entrySubs⟩ := pr
      simp only [hp] at hok
      cases hle : loadEntry fs baseDir (fs.length + 1) entrySubs
          (pathJoin baseDir entryFile) { visited := [], modules := [] } with
      | error e2 => simp only [hle] at hok; exact Except.noConfusion hok
      | ok stF =>
        simp only [hle] at hok
        simp only [Except.ok.injEq, Prod.mk.injEq] at hok
        obtain ⟨rfl, rfl⟩ := hok
        exact ⟨content, entrySubs, rfl, hp, hle⟩

theorem sIntercalate_append2 (sep : String) :
    ∀ (l : List String), l ≠ [] → ∀ (a b : String),
      sIntercalate sep (l ++ [a, b]) =
        sIntercalate sep l ++ sep ++ a ++ sep ++ b := by
  intro l
  induction l with
  | nil => intro h; exact absurd rfl h
  | cons x xs ih =>
    intro _ a b
    cases xs with
    | nil => simp [sIntercalate, String.append_assoc]
    | cons y ys =>
      have ih2 := ih (by simp) a b
      simp only [List.cons_append] at ih2 ⊢
      show x ++ sep ++ sIntercalate sep (y :: (ys ++ [a, b])) =
        x ++ sep ++ sIntercalate sep (y :: ys) ++ sep ++ a ++ sep ++ b
      rw [ih2]
      simp [String.append_assoc]

/-! ### C1 — cycles are rejected with `CircularImport`, no artifact -/

/-- C1: for a well-formed module graph with a dependency cycle reachable from
    the entry module, the build fails with `CircularImport` and the CLI writes
    no artifact; the detection site is `loadModule`'s check of the active
    traversal stack: a module whose absolute path is already on the stack
    fails immediately with `CircularImport`. -/
theorem c1_circular_import (fs : Fs)
    (baseDir entryFile dateString timeString : String)
    (hnd : (domF fs).Nodup)
    (hd : domainOkB fs baseDir = true)
    (he : pathJoin baseDir entryFile ∈ domF fs)
    (hcyc : ∃ q, PathTo fs baseDir (pathJoin baseDir entryFile) q ∧
      CycThru fs baseDir q) :
    (∃ n p, bundleLua fs baseDir entryFile dateString timeString =
      .error (.circularImport n p)) ∧
    runCli fs baseDir entryFile dateString timeString = none ∧
    (∀ (fuel : Nat) (m : String) (stack : List String) (prev : String)
      (st : BState),
      pathResolve baseDir m ∈ stack →
      loadModule fs baseDir (fuel + 1) m stack prev st =
        .error (.circularImport m prev)) := by
  have hdetect : ∀ (fuel : Nat) (m : String) (stack : List String)
      (prev : String) (st : BState),
      pathResolve baseDir m ∈ stack →
      loadModule fs baseDir (fuel + 1) m stack prev st =
        .error (.circularImport m prev) := by
    intro fuel m stack prev st hmem
    rw [loadModule]
    try dsimp only
    rw [if_pos hmem]
  have hsome : (lookupFs fs (pathJoin baseDir entryFile)).isSome = true := by
    unfold lookupFs
    exact lookup_isSome_iff.mpr he
  obtain ⟨content, hl⟩ := Option.isSome_iff_exists.mp hsome
  have hmem : (pathJoin baseDir entryFile, content) ∈ fs := lookup_eq_some_mem hl
  obtain ⟨te, entrySubs, hp, hsubs⟩ := domainOk_spec hd hmem
  have hedges : edgesA fs baseDir (pathJoin baseDir entryFile) =
      entrySubs.map (pathResolve baseDir) := by
    unfold edgesA; rw [specDeps_eq hl hp]
  rcases loadEntry_errs fs baseDir hd hnd entrySubs (pathJoin baseDir entryFile)
      hsubs with ⟨stF, hle⟩ | ⟨n, p, hle⟩
  · exfalso
    have hlp := loadEntry_ok fs baseDir (fun _ => True) (fun _ _ _ _ => trivial)
      hd hnd (fs.length + 1) entrySubs (pathJoin baseDir entryFile) stF
      (fun _ _ => trivial) hle
    obtain ⟨-, hdvis, hinvF, -, -⟩ := hlp
    obtain ⟨q, hpq, hcq⟩ := hcyc
    cases hpq with
    | refl =>
      have hcq2 := hcq
      obtain ⟨z, hz, hpz⟩ := hcq2
      rw [hedges] at hz
      obtain ⟨d2, hd2, rfl⟩ := List.mem_map.mp hz
      have hzv : pathResolve baseDir d2 ∈ stF.visited := hdvis d2 hd2
      have hev : pathJoin baseDir entryFile ∈ stF.visited :=
        closed_reach hinvF.visClosed hzv hpz
      exact hinvF.visNoCyc _ hev hcq
    | step h1 h2 =>
      rw [hedges] at h1
      obtain ⟨d2, hd2, rfl⟩ := List.mem_map.mp h1
      have hq1 : pathResolve baseDir d2 ∈ stF.visited := hdvis d2 hd2
      have hrv : q ∈ stF.visited := closed_reach hinvF.visClosed hq1 h2
      exact hinvF.visNoCyc _ hrv hcq
  · refine ⟨⟨n, p, ?_⟩, ?_, hdetect⟩
    · unfold bundleLua buildModules
      simp only [hl, hp, hle]
    · unfold runCli bundleLua buildModules
      simp only [hl, hp, hle]
      rfl

/-- Witness for C1: the two-module cycle `a ↔ b` of `fsCyc2`. -/
theorem c1_circular_import_witness :
    (∃ n p, bundleLua fsCyc2 "/src" "main.lua" "D" "T" =
      .error (.circularImport n p)) ∧
    runCli fsCyc2 "/src" "main.lua" "D" "T" = none ∧
    (∀ (fuel : Nat) (m : String) (stack : List String) (prev : String)
      (st : BState),
      pathResolve "/src" m ∈ stack →
      loadModule fsCyc2 "/src" (fuel + 1) m stack prev st =
        .error (.circularImport m prev)) :=
  c1_circular_import fsCyc2 "/src" "main.lua" "D" "T" (by decide) (by decide)
    (by decide)
    ⟨"/src/a.lua",
     @PathTo.step fsCyc2 "/src" (pathJoin "/src" "main.lua") "/src/a.lua"
       "/src/a.lua" (by decide) (PathTo.refl _),
     ⟨"/src/b.lua", by decide,
      @PathTo.step fsCyc2 "/src" "/src/b.lua" "/src/a.lua" "/src/a.lua"
        (by decide) (PathTo.refl _)⟩⟩

/-! ### C2 — unique table entries, diamond dedup -/

/-- C2: in every successful build over a well-formed graph, the module table
    maps each canonical path to at most one entry (its key list is
    duplicate-free, so each key counts exactly once among the emitted thunk
    bindings), and `loadModule` returns immediately, changing nothing and
    re-reading nothing, when the module's absolute path is already in the
    visited set; the artifact is the emission of exactly this table. -/
theorem c2_diamond_dedup (fs : Fs) (baseDir entryFile : String)
    (hnd : (domF fs).Nodup) (hd : domainOkB fs baseDir = true)
    (st : BState) (e : String)
    (hok : buildModules fs baseDir entryFile = .ok (st, e)) :
    (keysOf st.modules).Nodup ∧
    (∀ k ∈ keysOf st.modules, (keysOf st.modules).count k = 1) ∧
    (∀ (fuel : Nat) (m : String) (stack : List String) (prev : String)
      (s : BState),
      pathResolve baseDir m ∉ stack →
      pathResolve baseDir m ∈ s.visited →
      loadModule fs baseDir (fuel + 1) m stack prev s = .ok s) ∧
    (∀ dateString timeString,
      bundleLua fs baseDir entryFile dateString timeString =
        .ok (emitBundle st.modules e dateString timeString)) := by
  obtain ⟨content, entrySubs, hl, hp, hle⟩ := buildModules_ok_elim hok
  have hlp := loadEntry_ok fs baseDir (fun _ => True) (fun _ _ _ _ => trivial)
    hd hnd (fs.length + 1) entrySubs (pathJoin baseDir entryFile) st
    (fun _ _ => trivial) hle
  obtain ⟨-, -, hinvF, -, -⟩ := hlp
  refine ⟨hinvF.keysNd, ?_, ?_, ?_⟩
  · intro k hk
    exact List.count_eq_one_of_mem hinvF.keysNd hk
  · intro fuel m stack prev s hns hvs
    rw [loadModule]
    try dsimp only
    rw [if_neg hns, if_pos hvs]
  · intro dateString timeString
    unfold bundleLua
    rw [hok]

/-- Witness for C2: the diamond `main → {a, b}`, `a → d`, `b → d`. -/
theorem c2_diamond_dedup_witness :
    (keysOf [("a.lua", "return import(\"d.lua\")"), ("d.lua", "return 1"),
             ("b.lua", "return import(\"d.lua\") + 1")]).Nodup ∧
    (∀ k ∈ keysOf [("a.lua", "return import(\"d.lua\")"), ("d.lua", "return 1"),
             ("b.lua", "return import(\"d.lua\") + 1")],
      (keysOf [("a.lua", "return import(\"d.lua\")"), ("d.lua", "return 1"),
               ("b.lua", "return import(\"d.lua\") + 1")]).count k = 1) ∧
    (∀ (fuel : Nat) (m : String) (stack : List String) (prev : String)
      (s : BState),
      pathResolve "/src" m ∉ stack →
      pathResolve "/src" m ∈ s.visited →
      loadModule fsDiamond "/src" (fuel + 1) m stack prev s = .ok s) ∧
    (∀ dateString timeString,
      bundleLua fsDiamond "/src" "main.lua" dateString timeString =
        .ok (emitBundle
          [("a.lua", "return import(\"d.lua\")"), ("d.lua", "return 1"),
           ("b.lua", "return import(\"d.lua\") + 1")]
          "local a = import(\"a.lua\")\nlocal b = import(\"b.lua\")\nprint(a, b)"
          dateString timeString)) :=
  c2_diamond_dedup fsDiamond "/src" "main.lua" (by decide) (by decide)
    { visited := ["/src/b.lua", "/src/a.lua", "/src/d.lua"],
      modules := [("a.lua", "return import(\"d.lua\")"), ("d.lua", "return 1"),
                  ("b.lua", "return import(\"d.lua\") + 1")] }
    "local a = import(\"a.lua\")\nlocal b = import(\"b.lua\")\nprint(a, b)"
    (by rfl)

/-! ### C3 — pre-order insertion and deterministic discovery order -/

/-- C3: every module is inserted into the table before its dependency list is
    recursively loaded (the recursion receives the state already containing
    the module), so in every successful build over a well-formed graph the
    table's key order equals the spec's depth-first, first-occurrence
    discovery order over the entry's imports, and any two builds of the same
    tree produce that same key order. -/
theorem c3_insertion_order (fs : Fs) (baseDir entryFile : String)
    (hnd : (domF fs).Nodup) (hd : domainOkB fs baseDir = true)
    (st : BState) (e content : String) (entrySubs : List String)
    (hok : buildModules fs baseDir entryFile = .ok (st, e))
    (hl : lookupFs fs (pathJoin baseDir entryFile) = some content)
    (hp : parseAndTransform fs baseDir content (pathJoin baseDir entryFile) =
      .ok (e, entrySubs)) :
    keysOf st.modules = dfsDiscovery fs baseDir entrySubs ∧
    (∀ (st2 : BState) (e2 : String),
      buildModules fs baseDir entryFile = .ok (st2, e2) →
      keysOf st2.modules = dfsDiscovery fs baseDir entrySubs) ∧
    (∀ (fuel : Nat) (m : String) (stack : List String) (prev : String)
      (s : BState) (content2 nc : String) (subs : List String),
      pathResolve baseDir m ∉ stack →
      pathResolve baseDir m ∉ s.visited →
      lookupFs fs (pathResolve baseDir m) = some content2 →
      parseAndTransform fs baseDir content2 (pathResolve baseDir m) =
        .ok (nc, subs) →
      loadModule fs baseDir (fuel + 1) m stack prev s =
        match loadList (loadModule fs baseDir fuel) subs
            (pathResolve baseDir m :: stack) (pathResolve baseDir m)
            { s with modules := insertMod s.modules m nc } with
        | .ok st3 => .ok { st3 with visited := pathResolve baseDir m :: st3.visited }
        | .error e2 => .error e2) := by
  obtain ⟨content2, entrySubs2, hl2, hp2, hle⟩ := buildModules_ok_elim hok
  rw [hl] at hl2
  cases hl2
  rw [hp] at hp2
  cases hp2
  have horder : keysOf st.modules = dfsDiscovery fs baseDir entrySubs := by
    have hlp := loadEntry_ok fs baseDir (fun _ => True) (fun _ _ _ _ => trivial)
      hd hnd (fs.length + 1) entrySubs (pathJoin baseDir entryFile) st
      (fun _ _ => trivial) hle
    obtain ⟨-, -, -, -, tail, hmods, -, -, hdfs⟩ := hlp
    have htail : st.modules = tail := by simpa using hmods
    unfold dfsDiscovery
    rw [show absKeys baseDir ({ visited := [], modules := [] } : BState).modules
        = ([] : List String) from rfl] at hdfs
    rw [hdfs]
    rw [htail]
  refine ⟨horder, ?_, ?_⟩
  · intro st2 e2 hok2
    rw [hok] at hok2
    simp only [Except.ok.injEq, Prod.mk.injEq] at hok2
    obtain ⟨rfl, rfl⟩ := hok2
    exact horder
  · intro fuel m stack prev s content3 nc subs hns hvs hlk hpt
    rw [loadModule]
    try dsimp only
    rw [if_neg hns, if_neg hvs]
    simp only [hlk, hpt]

/-- Witness for C3: on the diamond fixture the key order is the DFS discovery
    order `a.lua, d.lua, b.lua`. -/
theorem c3_insertion_order_witness :
    keysOf [("a.lua", "return import(\"d.lua\")"), ("d.lua", "return 1"),
            ("b.lua", "return import(\"d.lua\") + 1")] =
      dfsDiscovery fsDiamond "/src" ["a.lua", "b.lua"] ∧
    (∀ (st2 : BState) (e2 : String),
      buildModules fsDiamond "/src" "main.lua" = .ok (st2, e2) →
      keysOf st2.modules = dfsDiscovery fsDiamond "/src" ["a.lua", "b.lua"]) :=
  have h := c3_insertion_order fsDiamond "/src" "main.lua" (by decide) (by decide)
    { visited := ["/src/b.lua", "/src/a.lua", "/src/d.lua"],
      modules := [("a.lua", "return import(\"d.lua\")"), ("d.lua", "return 1"),
                  ("b.lua", "return import(\"d.lua\") + 1")] }
    "local a = import(\"a.lua\")\nlocal b = import(\"b.lua\")\nprint(a, b)"
    "local a = require(\"./a\")\nlocal b = require(\"./b\")\nprint(a, b)"
    ["a.lua", "b.lua"] (by rfl) (by rfl) (by rfl)
  ⟨h.1, h.2.1⟩

/-! ### C9 — the entry module stays out of the table -/

/-- C9: in every successful build over a well-formed graph, no table entry is
    the entry module (its rewritten text is never inserted into the module
    table); every table key is a direct or transitive dependency of the
    entry; and the artifact appends the entry's rewritten text verbatim at
    the very end, after the `-- Entry point` marker. -/
theorem c9_entry_exclusion (fs : Fs) (baseDir entryFile : String)
    (hnd : (domF fs).Nodup) (hd : domainOkB fs baseDir = true)
    (st : BState) (e : String)
    (hok : buildModules fs baseDir entryFile = .ok (st, e)) :
    (∀ k ∈ keysOf st.modules,
      pathResolve baseDir k ≠ pathJoin baseDir entryFile) ∧
    (∀ k ∈ keysOf st.modules,
      ∃ q, q ∈ edgesA fs baseDir (pathJoin baseDir entryFile) ∧
        PathTo fs baseDir q (pathResolve baseDir k)) ∧
    (∀ dateString timeString,
      bundleLua fs baseDir entryFile dateString timeString =
        .ok (emitBundle st.modules e dateString timeString) ∧
      ∃ pre, emitBundle st.modules e dateString timeString =
        pre ++ ("\n-- Entry point\n" ++ e)) := by
  obtain ⟨content, entrySubs, hl, hp, hle⟩ := buildModules_ok_elim hok
  have hedges : edgesA fs baseDir (pathJoin baseDir entryFile) =
      entrySubs.map (pathResolve baseDir) := by
    unfold edgesA; rw [specDeps_eq hl hp]
  have hR : ∀ p q,
      (∃ z, z ∈ edgesA fs baseDir (pathJoin baseDir entryFile) ∧
        PathTo fs baseDir z p) →
      q ∈ edgesA fs baseDir p →
      (∃ z, z ∈ edgesA fs baseDir (pathJoin baseDir entryFile) ∧
        PathTo fs baseDir z q) := by
    rintro p q ⟨z, hz, hpz⟩ he2
    exact ⟨z, hz, pathTo_snoc hpz he2⟩
  have hds : ∀ d ∈ entrySubs,
      ∃ z, z ∈ edgesA fs baseDir (pathJoin baseDir entryFile) ∧
        PathTo fs baseDir z (pathResolve baseDir d) := by
    intro d hd2
    exact ⟨pathResolve baseDir d,
      by rw [hedges]; exact List.mem_map.mpr ⟨d, hd2, rfl⟩, PathTo.refl _⟩
  have hlp := loadEntry_ok fs baseDir
    (fun p => ∃ z, z ∈ edgesA fs baseDir (pathJoin baseDir entryFile) ∧
      PathTo fs baseDir z p)
    hR hd hnd (fs.length + 1) entrySubs (pathJoin baseDir entryFile) st hds hle
  obtain ⟨-, -, hinvF, hkrF, tail, hmods, htk, -, -⟩ := hlp
  have htail : st.modules = tail := by simpa using hmods
  refine ⟨?_, hkrF, ?_⟩
  · intro k hk heq
    have hkR := hkrF k hk
    rw [heq] at hkR
    have hkv : pathResolve baseDir k ∈ st.visited := by
      have := htk k (by rw [← htail]; exact hk)
      exact this
    rw [heq] at hkv
    exact hinvF.visNoCyc _ hkv hkR
  · intro dateString timeString
    refine ⟨by unfold bundleLua; rw [hok], ?_⟩
    refine ⟨sIntercalate "\n" (headerLines dateString timeString ++
      st.modules.flatMap (fun kv => moduleBlock kv.1 kv.2) ++
      importLines ++ gameRequireLines), ?_⟩
    unfold emitBundle
    rw [show headerLines dateString timeString ++
        st.modules.flatMap (fun kv => moduleBlock kv.1 kv.2) ++
        importLines ++ gameRequireLines ++ ["-- Entry point", e] =
        (headerLines dateString timeString ++
         st.modules.flatMap (fun kv => moduleBlock kv.1 kv.2) ++
         importLines ++ gameRequireLines) ++ ["-- Entry point", e] from by
      simp [List.append_assoc]]
    rw [sIntercalate_append2 "\n" _ (by simp [headerLines]) "-- Entry point" e]
    simp only [← String.append_assoc]
    congr 1
    rw [String.append_assoc, String.append_assoc]
    congr 1

/-- Witness for C9: the diamond fixture's table excludes the entry, and the
    artifact ends with the entry text. -/
theorem c9_entry_exclusion_witness :
    (∀ k ∈ keysOf [("a.lua", "return import(\"d.lua\")"), ("d.lua", "return 1"),
                   ("b.lua", "return import(\"d.lua\") + 1")],
      pathResolve "/src" k ≠ pathJoin "/src" "main.lua") ∧
    (∀ dateString timeString,
      bundleLua fsDiamond "/src" "main.lua" dateString timeString =
        .ok (emitBundle
          [("a.lua", "return import(\"d.lua\")"), ("d.lua", "return 1"),
           ("b.lua", "return import(\"d.lua\") + 1")]
          "local a = import(\"a.lua\")\nlocal b = import(\"b.lua\")\nprint(a, b)"
          dateString timeString) ∧
      ∃ pre, emitBundle
          [("a.lua", "return import(\"d.lua\")"), ("d.lua", "return 1"),
           ("b.lua", "return import(\"d.lua\") + 1")]
          "local a = import(\"a.lua\")\nlocal b = import(\"b.lua\")\nprint(a, b)"
          dateString timeString =
        pre ++ ("\n-- Entry point\n" ++
          "local a = import(\"a.lua\")\nlocal b = import(\"b.lua\")\nprint(a, b)")) :=
  have h := c9_entry_exclusion fsDiamond "/src" "main.lua" (by decide) (by decide)
    { visited := ["/src/b.lua", "/src/a.lua", "/src/d.lua"],
      modules := [("a.lua", "return import(\"d.lua\")"), ("d.lua", "return 1"),
                  ("b.lua", "return import(\"d.lua\") + 1")] }
    "local a = import(\"a.lua\")\nlocal b = import(\"b.lua\")\nprint(a, b)"
    (by rfl)
  ⟨h.1, h.2.2⟩

end Bundler
